import Mathlib

/-!
# dive: layer comparison indexes and CNB stack normalisation

A shallow embedding of

* `LayerSetState.GetCompareIndexes` (`runtime/ui/viewmodel/layer_set_state.go`),
* `AnalyzeCNB` (`runtime/cnb.go`),

together with the properties the specification states about them.

Conventions.  Go `int` is the 64-bit two's-complement integer: values are `Int`s and every
arithmetic result is reduced by `wrapInt`.  Go `uint64` is a `Nat` reduced modulo `2 ^ 64`.
Pointers are addresses (`Addr`) into an explicit heap; the heap is part of the state that a
function receives and returns, so mutation through a pointer is visible to every alias.
-/

namespace Dive

/-! ## Machine integers -/

/-- Smallest value of a Go `int` (64-bit). -/
def minInt : Int := -(2 ^ 63)

/-- Largest value of a Go `int` (64-bit). -/
def maxInt : Int := 2 ^ 63 - 1

/-- Two's-complement reduction of an exact integer to a Go `int`. -/
def wrapInt (x : Int) : Int := (x + 2 ^ 63) % 2 ^ 64 - 2 ^ 63

/-- Reduction of an exact natural number to a Go `uint64`. -/
def wrapU64 (x : Nat) : Nat := x % 2 ^ 64

/-- A heap address: the target of a non-nil Go pointer. -/
abbrev Addr := Nat

/-! ## `viewmodel.LayerSetState` -/

/-- Modelled from the spec: the declaration of `viewmodel.LayerCompareMode` with its two
constants `CompareSingleLayer` and `CompareAllLayers` is not part of the sources at hand; the
spec describes it as the enumeration `SingleLayer` / `AllLayers`. -/
inductive LayerCompareMode where
  | CompareSingleLayer
  | CompareAllLayers
  deriving DecidableEq, Repr

/-- The struct `LayerSetState`; `Layers` holds `*image.Layer` pointers. -/
structure LayerSetState where
  LayerIndex : Int
  Layers : List Addr
  CompareMode : LayerCompareMode
  CompareStartIndex : Int
  deriving DecidableEq, Repr

/-- The method `GetCompareIndexes`: the four results
`(bottomTreeStart, bottomTreeStop, topTreeStart, topTreeStop)`. -/
def GetCompareIndexes (state : LayerSetState) : Int × Int × Int × Int :=
  let bottomTreeStart := state.CompareStartIndex
  let topTreeStop := state.LayerIndex
  if state.LayerIndex = state.CompareStartIndex then
    (bottomTreeStart, state.LayerIndex, state.LayerIndex, topTreeStop)
  else if state.CompareMode = LayerCompareMode.CompareSingleLayer then
    (bottomTreeStart, wrapInt (state.LayerIndex - 1), state.LayerIndex, topTreeStop)
  else
    (bottomTreeStart, state.CompareStartIndex, wrapInt (state.CompareStartIndex + 1), topTreeStop)

/-- All four results of `GetCompareIndexes` are non-negative. -/
def allNonNegative (r : Int × Int × Int × Int) : Prop :=
  0 ≤ r.1 ∧ 0 ≤ r.2.1 ∧ 0 ≤ r.2.2.1 ∧ 0 ≤ r.2.2.2

instance (r : Int × Int × Int × Int) : Decidable (allNonNegative r) := by
  unfold allNonNegative; infer_instance

/-! ## `image.Layer`, `image.AnalysisResult` and the heap -/

/-- Modelled from the spec: the declaration of `image.Layer` is not part of the sources at
hand.  The fields are the attributes the spec lists for a layer (`id`, `digest`, `index`,
`size`, `names`, `command`) under the names by which the sources access them (`layer.Size`,
`layer.Digest`, `layer.Index`, `currentLayer.Id`, `currentLayer.Names`); `Size` is a
`uint64` byte count. -/
structure Layer where
  Id : String
  Index : Int
  Command : String
  Size : Nat
  Names : List String
  Digest : String
  deriving DecidableEq, Repr

/-- Modelled from the spec: the declaration of `image.AnalysisResult` is not part of the
sources at hand.  The spec describes it as the ordered sequence of layers, the parallel
sequence of file trees and scalar summary metrics; `Layers` and `RefTrees` are slices of
pointers and `SizeBytes` stands for the scalar metrics, none of which `AnalyzeCNB` touches. -/
structure AnalysisResult where
  Layers : List Addr
  RefTrees : List Addr
  SizeBytes : Nat
  deriving DecidableEq, Repr

/-- The memory `AnalyzeCNB` works on: the `image.Layer` objects by address, the state `σ` of
all `filetree.FileTree` objects (opaque here), and the struct its argument `analysis` points
to. -/
structure Memory (σ : Type) where
  layers : Addr → Layer
  trees : σ
  analysis : AnalysisResult

/-- The method `curRefTree.Stack(rTree)` of `filetree.FileTree`, whose body is not part of the
sources at hand and is therefore a parameter: from the state of the trees, the address of the
receiver and the address of the argument it gives the state of the trees after the call and
whether the returned error is non-nil. -/
abbrev StackFn (σ : Type) := σ → Addr → Addr → σ × Bool

/-- The two calls into the external `pack` library.  `NewClient` is the error returned by
`pack.NewClient()` (`none` for nil).  `InspectImage imageName` is the outcome of
`client.InspectImage(imageName, true)`: an error, or the field `Base.TopLayer` of the image
information it returns. -/
structure Pack where
  NewClient : Option String
  InspectImage : String → Except String String

/-- The errors `AnalyzeCNB` builds with `fmt.Errorf`, one constructor per format string. -/
inductive CNBError where
  | createPackClient (err : String)
  | retrieveImageInfo (imageName err : String)
  | mismatchedLengths (layers refTrees : Nat)
  | stackingTrees
  deriving DecidableEq, Repr

/-- The variables of the loop of `AnalyzeCNB` together with the memory the loop mutates.
`cur` is the pair `(curLayer, curRefTree)`: the two variables are nil together (`none`) and
are assigned together. -/
structure LoopState (σ : Type) where
  layers : Addr → Layer
  trees : σ
  cur : Option (Addr × Addr)
  isStack : Bool
  newLayers : List Addr
  newRefTree : List Addr

/-- The statement `curLayer.Size += layer.Size` (addition of `uint64`) on the heap of layers. -/
def addSize (layers : Addr → Layer) (curLayer layer : Addr) : Addr → Layer :=
  Function.update layers curLayer
    { layers curLayer with Size := wrapU64 ((layers curLayer).Size + (layers layer).Size) }

/-- One iteration of the loop of `AnalyzeCNB` on the pair `layer`, `rTree`.  The `Bool` tells
whether the iteration left the function through `return nil, fmt.Errorf(...)`. -/
def loopBody {σ : Type} (Stack : StackFn σ) (TopLayer : String) (s : LoopState σ)
    (layer rTree : Addr) : LoopState σ × Bool :=
  match s.cur with
  | none => ({ s with cur := some (layer, rTree) }, false)
  | some (curLayer, curRefTree) =>
    let s1 : LoopState σ × Bool :=
      if s.isStack then
        let r := Stack s.trees curRefTree rTree
        ({ s with layers := addSize s.layers curLayer layer, trees := r.1 }, r.2)
      else (s, false)
    if s1.2 then s1
    else
      let s2 : LoopState σ :=
        if (s1.1.layers layer).Digest = TopLayer then
          { s1.1 with
            newLayers := s1.1.newLayers ++ [curLayer]
            newRefTree := s1.1.newRefTree ++ [curRefTree]
            isStack := false }
        else s1.1
      let s3 : LoopState σ :=
        if s2.isStack = false then
          { s2 with
            newLayers := s2.newLayers ++ [layer]
            newRefTree := s2.newRefTree ++ [rTree] }
        else s2
      (s3, false)

/-- The loop `for layerIdx, layer := range analysis.Layers` with
`rTree := analysis.RefTrees[layerIdx]`, run over the pairs `(layer, rTree)` in order; it stops
at the first iteration that returns. -/
def loop {σ : Type} (Stack : StackFn σ) (TopLayer : String) :
    LoopState σ → List (Addr × Addr) → LoopState σ × Bool
  | s, [] => (s, false)
  | s, (layer, rTree) :: rest =>
    if (loopBody Stack TopLayer s layer rTree).2 then loopBody Stack TopLayer s layer rTree
    else loop Stack TopLayer (loopBody Stack TopLayer s layer rTree).1 rest

/-- What a call of `AnalyzeCNB` leaves behind: the memory after the call, the struct the
returned pointer refers to (`none` for a nil pointer) and the returned error (`none` for
nil). -/
structure Return (σ : Type) where
  memory : Memory σ
  result : Option AnalysisResult
  err : Option CNBError

/-- The state in which the loop of `AnalyzeCNB` starts. -/
def loopInit {σ : Type} (m : Memory σ) : LoopState σ :=
  { layers := m.layers, trees := m.trees, cur := none, isStack := true,
    newLayers := [], newRefTree := [] }

/-- The state of the loop of `AnalyzeCNB` after its first iteration, which only sets
`curLayer` and `curRefTree` to the first pair. -/
def loopAccum {σ : Type} (m : Memory σ) (curLayer curRefTree : Addr) : LoopState σ :=
  { layers := m.layers, trees := m.trees, cur := some (curLayer, curRefTree), isStack := true,
    newLayers := [], newRefTree := [] }

/-- The function `AnalyzeCNB`.  A successful `InspectImage` is taken to return the image
information (a non-nil `img`), and the pointers in `Layers` and `RefTrees` are non-nil. -/
def AnalyzeCNB {σ : Type} (pack : Pack) (Stack : StackFn σ) (m : Memory σ)
    (imageName : String) : Return σ :=
  match pack.NewClient with
  | some err => ⟨m, none, some (CNBError.createPackClient err)⟩
  | none =>
    match pack.InspectImage imageName with
    | Except.error err => ⟨m, none, some (CNBError.retrieveImageInfo imageName err)⟩
    | Except.ok TopLayer =>
      if m.analysis.Layers.length ≠ m.analysis.RefTrees.length then
        ⟨m, none,
          some (CNBError.mismatchedLengths m.analysis.Layers.length m.analysis.RefTrees.length)⟩
      else
        let r := loop Stack TopLayer (loopInit m) (m.analysis.Layers.zip m.analysis.RefTrees)
        if r.2 then
          ⟨{ m with layers := r.1.layers, trees := r.1.trees }, none, some CNBError.stackingTrees⟩
        else
          let analysis : AnalysisResult :=
            { m.analysis with RefTrees := r.1.newRefTree, Layers := r.1.newLayers }
          ⟨{ layers := r.1.layers, trees := r.1.trees, analysis := analysis }, some analysis, none⟩

/-! ## Concrete inputs -/

/-- A concrete state of the file trees: each tree is the list of the trees stacked into it. -/
abbrev TreeStore := Addr → List Addr

/-- A `Stack` that always succeeds: the argument is merged into the receiver. -/
def stackOk : StackFn TreeStore :=
  fun trees curRefTree rTree =>
    (Function.update trees curRefTree (trees curRefTree ++ trees rTree), false)

/-- A `Stack` that always reports an error and leaves the trees alone. -/
def stackFail : StackFn TreeStore :=
  fun trees _ _ => (trees, true)

/-- Three layers of sizes 10, 20 and 30 at the addresses 0, 1 and 2 (every other address
holds an empty layer). -/
def sampleLayers : Addr → Layer
  | 0 => ⟨"id0", 0, "FROM base", 10, [], "sha256:aa"⟩
  | 1 => ⟨"id1", 1, "RUN one", 20, [], "sha256:bb"⟩
  | 2 => ⟨"id2", 2, "RUN two", 30, [], "sha256:cc"⟩
  | _ => ⟨"", 0, "", 0, [], ""⟩

/-- Initially the tree at address `t` holds only itself. -/
def sampleTrees : TreeStore := fun t => [t]

/-- The `pack` library succeeding, with `"sha256:bb"` as the top layer of the base image. -/
def packTopBB : Pack := ⟨none, fun _ => Except.ok "sha256:bb"⟩

/-- The `pack` library succeeding, with `"sha256:aa"` as the top layer of the base image. -/
def packTopAA : Pack := ⟨none, fun _ => Except.ok "sha256:aa"⟩

/-- Three layers and their three trees. -/
def memThree : Memory TreeStore := ⟨sampleLayers, sampleTrees, ⟨[0, 1, 2], [0, 1, 2], 60⟩⟩

/-- Two layers and their two trees. -/
def memTwo : Memory TreeStore := ⟨sampleLayers, sampleTrees, ⟨[0, 1], [0, 1], 30⟩⟩

/-- One layer and its tree. -/
def memOne : Memory TreeStore := ⟨sampleLayers, sampleTrees, ⟨[0], [0], 10⟩⟩

/-- Two layers but three trees. -/
def memMismatch : Memory TreeStore := ⟨sampleLayers, sampleTrees, ⟨[0, 1], [0, 1, 2], 30⟩⟩

/-! ## `view.Layer`: selection, listeners and navigation -/

/-- The method `SetLayerIndex` of `LayerSetState`. -/
def SetLayerIndex (state : LayerSetState) (index : Int) : LayerSetState :=
  { state with LayerIndex := index }

/-- Modelled from the spec: the declaration of `viewmodel.LayerSelection` is not part of the
sources at hand; the spec describes the value handed to the listeners as the new selection
with all four boundary indices, and the fields are the ones the struct literal in
`notifyLayerChangeListeners` sets. -/
structure LayerSelection where
  Layer : Addr
  BottomTreeStart : Int
  BottomTreeStop : Int
  TopTreeStart : Int
  TopTreeStop : Int
  deriving DecidableEq, Repr

/-- A `LayerChangeListener`, a Go function `func(LayerSelection) error`: from the selection and
the state `ω` of everything outside the layer view it gives the new outside state and the
returned error (`none` for nil). -/
abbrev LayerChangeListener (ω : Type) := LayerSelection → ω → ω × Option String

/-- The struct `Layer` of package `view`, reduced to the fields the navigation code reads and
writes: the view model `vm` and the registered `listeners`.  The `gocui` objects belong to the
outside state `ω`. -/
structure LayerView (ω : Type) where
  vm : LayerSetState
  listeners : List (LayerChangeListener ω)

/-- How a call ends: it returns an error value (`none` for nil), or the Go runtime panics on
an index out of range. -/
inductive Outcome where
  | returned (err : Option String)
  | panicked
  deriving DecidableEq, Repr

/-- The GUI functions the layer view calls, whose bodies are not part of the sources at hand
and are therefore parameters.  `viewHeight` is the second result of `v.view.Size()`;
`CursorStep`, `CursorDown` and `CursorUp` are the package-level cursor moves (new outside
state and returned error); `Update` is the effect of `v.gui.Update(...)` in `Render`. -/
structure Gui (ω : Type) where
  viewHeight : ω → Int
  CursorStep : ω → Int → ω × Option String
  CursorDown : ω → ω × Option String
  CursorUp : ω → ω × Option String
  Update : ω → ω

/-- What a method of the layer view leaves behind: the view, the outside state, and how the
call ended. -/
structure Step (ω : Type) where
  view : LayerView ω
  world : ω
  outcome : Outcome

/-- The method `AddLayerChangeListener` (variadic): `append(v.listeners, listener...)`. -/
def AddLayerChangeListener {ω : Type} (v : LayerView ω)
    (listener : List (LayerChangeListener ω)) : LayerView ω :=
  { v with listeners := v.listeners ++ listener }

/-- The method `CurrentLayer`: `v.vm.GetLayers()[v.vm.GetLayerIndex()]`; `none` stands for the
runtime panic of an index out of range. -/
def CurrentLayer {ω : Type} (v : LayerView ω) : Option Addr :=
  if 0 ≤ v.vm.LayerIndex then v.vm.Layers[v.vm.LayerIndex.toNat]? else none

/-- The loop `for _, listener := range v.listeners` of `notifyLayerChangeListeners`: it returns
at the first listener whose error is non-nil. -/
def notifyLoop {ω : Type} (selection : LayerSelection) :
    List (LayerChangeListener ω) → ω → ω × Option String
  | [], w => (w, none)
  | listener :: rest, w =>
    match (listener selection w).2 with
    | some err => ((listener selection w).1, some err)
    | none => notifyLoop selection rest (listener selection w).1

/-- The method `notifyLayerChangeListeners`. -/
def notifyLayerChangeListeners {ω : Type} (v : LayerView ω) (w : ω) : ω × Outcome :=
  let r := GetCompareIndexes v.vm
  match CurrentLayer v with
  | none => (w, Outcome.panicked)
  | some layer =>
    let selection : LayerSelection :=
      { Layer := layer, BottomTreeStart := r.1, BottomTreeStop := r.2.1,
        TopTreeStart := r.2.2.1, TopTreeStop := r.2.2.2 }
    let out := notifyLoop selection v.listeners w
    (out.1, Outcome.returned out.2)

/-- The method `SetCursor`; `Render` hands a callback to `v.gui.Update` and returns nil. -/
def SetCursor {ω : Type} (gui : Gui ω) (v : LayerView ω) (w : ω) (layer : Int) : Step ω :=
  let v1 : LayerView ω := { v with vm := SetLayerIndex v.vm layer }
  match notifyLayerChangeListeners v1 w with
  | (w1, Outcome.panicked) => ⟨v1, w1, Outcome.panicked⟩
  | (w1, Outcome.returned (some err)) => ⟨v1, w1, Outcome.returned (some err)⟩
  | (w1, Outcome.returned none) => ⟨v1, gui.Update w1, Outcome.returned none⟩

/-- The method `height`: `uint(height - 1)` for the `height` of `v.view.Size()`. -/
def height {ω : Type} (gui : Gui ω) (w : ω) : Nat :=
  (wrapInt (gui.viewHeight w - 1) % 2 ^ 64).toNat

/-- The expression `int(v.height()) + 1` with which `PageDown` and `PageUp` start. -/
def pageStep {ω : Type} (gui : Gui ω) (w : ω) : Int :=
  wrapInt (wrapInt (height gui w) + 1)

/-- The method `PageDown`. -/
def PageDown {ω : Type} (gui : Gui ω) (v : LayerView ω) (w : ω) : Step ω :=
  let step := pageStep gui w
  let targetLayerIndex := wrapInt (v.vm.LayerIndex + step)
  let step :=
    if targetLayerIndex > (v.vm.Layers.length : Int) then
      wrapInt (step - wrapInt (targetLayerIndex - wrapInt ((v.vm.Layers.length : Int) - 1)))
    else step
  if step > 0 then
    match (gui.CursorStep w step).2 with
    | none => SetCursor gui v (gui.CursorStep w step).1 (wrapInt (v.vm.LayerIndex + step))
    | some _ => ⟨v, (gui.CursorStep w step).1, Outcome.returned none⟩
  else ⟨v, w, Outcome.returned none⟩

/-- The method `PageUp`. -/
def PageUp {ω : Type} (gui : Gui ω) (v : LayerView ω) (w : ω) : Step ω :=
  let step := pageStep gui w
  let targetLayerIndex := wrapInt (v.vm.LayerIndex - step)
  let step := if targetLayerIndex < 0 then wrapInt (step + targetLayerIndex) else step
  if step > 0 then
    match (gui.CursorStep w (wrapInt (-step))).2 with
    | none =>
      SetCursor gui v (gui.CursorStep w (wrapInt (-step))).1 (wrapInt (v.vm.LayerIndex - step))
    | some _ => ⟨v, (gui.CursorStep w (wrapInt (-step))).1, Outcome.returned none⟩
  else ⟨v, w, Outcome.returned none⟩

/-- The method `CursorDown`. -/
def CursorDown {ω : Type} (gui : Gui ω) (v : LayerView ω) (w : ω) : Step ω :=
  if v.vm.LayerIndex < (v.vm.Layers.length : Int) then
    match (gui.CursorDown w).2 with
    | none => SetCursor gui v (gui.CursorDown w).1 (wrapInt (v.vm.LayerIndex + 1))
    | some _ => ⟨v, (gui.CursorDown w).1, Outcome.returned none⟩
  else ⟨v, w, Outcome.returned none⟩

/-- The method `CursorUp`. -/
def CursorUp {ω : Type} (gui : Gui ω) (v : LayerView ω) (w : ω) : Step ω :=
  if v.vm.LayerIndex > 0 then
    match (gui.CursorUp w).2 with
    | none => SetCursor gui v (gui.CursorUp w).1 (wrapInt (v.vm.LayerIndex - 1))
    | some _ => ⟨v, (gui.CursorUp w).1, Outcome.returned none⟩
  else ⟨v, w, Outcome.returned none⟩

/-- The invariant of the selection: `0 ≤ LayerIndex < len(Layers)`. -/
def indexInRange (state : LayerSetState) : Prop :=
  0 ≤ state.LayerIndex ∧ state.LayerIndex < (state.Layers.length : Int)

instance (state : LayerSetState) : Decidable (indexInRange state) := by
  unfold indexInRange; infer_instance

/-- The outside state after each listener of `ls` has been invoked once, in order, with
`selection`. -/
def invokeAll {ω : Type} (selection : LayerSelection) (ls : List (LayerChangeListener ω))
    (w : ω) : ω :=
  ls.foldl (fun w listener => (listener selection w).1) w

/-- Every listener of `ls`, invoked in order with `selection`, returns nil. -/
def allSucceed {ω : Type} (selection : LayerSelection) :
    List (LayerChangeListener ω) → ω → Prop
  | [], _ => True
  | listener :: rest, w =>
    (listener selection w).2 = none ∧ allSucceed selection rest (listener selection w).1

/-- The selection `notifyLayerChangeListeners` builds for the layer `layer`: the layer and the
four results of `GetCompareIndexes`. -/
def selectionOf (state : LayerSetState) (layer : Addr) : LayerSelection :=
  { Layer := layer
    BottomTreeStart := (GetCompareIndexes state).1
    BottomTreeStop := (GetCompareIndexes state).2.1
    TopTreeStart := (GetCompareIndexes state).2.2.1
    TopTreeStop := (GetCompareIndexes state).2.2.2 }

/-- The calls `curRefTree.Stack(t)` for the trees `t` of `ts` in order, up to the first that
reports an error: the state of the trees afterwards and whether a call reported an error. -/
def stackAll {σ : Type} (Stack : StackFn σ) (trees : σ) (curRefTree : Addr) :
    List Addr → σ × Bool
  | [] => (trees, false)
  | t :: ts =>
    if (Stack trees curRefTree t).2 then ((Stack trees curRefTree t).1, true)
    else stackAll Stack (Stack trees curRefTree t).1 curRefTree ts

/-- A `Stack` call of `AnalyzeCNB` reports an error, and it is the call for the layer `l`
with tree `t`: the input is the first pair `c`, `tc`, then the pairs of `pre` and `tpre`, then
`l`, `t`, then the pairs of `post` and `tpost`; no layer of `pre` carries the top digest, so
the loop is still in stack mode when it reaches `l`; the `Stack` calls for the trees of
`tpre` all succeed; and the `Stack` call for `t`, made on the trees they leave, reports an
error. -/
def stackFailsAt {σ : Type} (Stack : StackFn σ) (top : String) (m : Memory σ) (c tc : Addr)
    (pre : List Addr) (l : Addr) (post tpre : List Addr) (t : Addr) (tpost : List Addr) :
    Prop :=
  m.analysis.Layers = c :: (pre ++ l :: post)
    ∧ m.analysis.RefTrees = tc :: (tpre ++ t :: tpost)
    ∧ pre.length = tpre.length
    ∧ post.length = tpost.length
    ∧ (∀ a ∈ pre, (m.layers a).Digest ≠ top)
    ∧ (stackAll Stack m.trees tc tpre).2 = false
    ∧ (Stack (stackAll Stack m.trees tc tpre).1 tc t).2 = true

/-! ## Concrete inputs: the layer view -/

/-- A concrete outside state: the log of the listener invocations, each with the number of the
listener and the selection it received. -/
abbrev Log := List (Nat × LayerSelection)

/-- A listener that records its invocation and returns nil. -/
def listenerOk (n : Nat) : LayerChangeListener Log :=
  fun selection w => (w ++ [(n, selection)], none)

/-- A listener that records its invocation and returns an error. -/
def listenerFail (n : Nat) : LayerChangeListener Log :=
  fun selection w => (w ++ [(n, selection)], some "listener failed")

/-- A GUI whose view has height `h` and whose cursor moves all succeed. -/
def guiOk (h : Int) : Gui Log :=
  ⟨fun _ => h, fun w _ => (w, none), fun w => (w, none), fun w => (w, none), fun w => w⟩

/-- A GUI whose view has height `h` and whose cursor moves all report an error. -/
def guiFail (h : Int) : Gui Log :=
  ⟨fun _ => h, fun w _ => (w, some "cannot move"), fun w => (w, some "cannot move"),
    fun w => (w, some "cannot move"), fun w => w⟩

/-- A layer view over three layers with the selection at `index`, in single-layer mode, with
the given listeners. -/
def viewThree (index : Int) (listeners : List (LayerChangeListener Log)) : LayerView Log :=
  ⟨⟨index, [0, 1, 2], LayerCompareMode.CompareSingleLayer, 0⟩, listeners⟩

/-- Four layers of sizes 10, 20, 30 and 40 with `Index` 0, 1, 2 and 3 at the addresses 0, 1,
2 and 3 (every other address holds an empty layer). -/
def fourLayers : Addr → Layer
  | 0 => ⟨"id0", 0, "FROM base", 10, [], "sha256:aa"⟩
  | 1 => ⟨"id1", 1, "RUN one", 20, [], "sha256:bb"⟩
  | 2 => ⟨"id2", 2, "RUN two", 30, [], "sha256:cc"⟩
  | 3 => ⟨"id3", 3, "RUN three", 40, [], "sha256:dd"⟩
  | _ => ⟨"", 0, "", 0, [], ""⟩

/-- Four layers and their four trees. -/
def memFour : Memory TreeStore := ⟨fourLayers, sampleTrees, ⟨[0, 1, 2, 3], [0, 1, 2, 3], 100⟩⟩

/-- The `pack` library succeeding, with `"sha256:cc"` as the top layer of the base image. -/
def packTopCC : Pack := ⟨none, fun _ => Except.ok "sha256:cc"⟩

/-- The `pack` library succeeding, with a top layer that no sample layer carries. -/
def packTopZZ : Pack := ⟨none, fun _ => Except.ok "sha256:zz"⟩

/-! ## Theorems: `GetCompareIndexes` -/

theorem wrapInt_of_range (x : Int) (hlo : minInt ≤ x) (hhi : x ≤ maxInt) : wrapInt x = x := by
  unfold wrapInt
  unfold minInt at hlo
  unfold maxInt at hhi
  rw [Int.emod_eq_of_lt (by omega) (by omega)]
  omega

theorem wrapInt_sub_wrapInt (x y : Int) : wrapInt (x - wrapInt (x - y)) = wrapInt y := by
  unfold wrapInt
  omega

/-- C7. Rule 1 of `GetCompareIndexes`: when `LayerIndex` equals `CompareStartIndex` (call the
common value `s`) the result is `(s, s, s, s)`; it is the same whatever the compare mode is
set to, and `bottomTreeStop` is not `s - 1`, neither over the integers nor as the subtraction
of Go `int`. -/
theorem GetCompareIndexes_rule1 (state : LayerSetState)
    (heq : state.LayerIndex = state.CompareStartIndex) :
    GetCompareIndexes state
        = (state.LayerIndex, state.LayerIndex, state.LayerIndex, state.LayerIndex)
      ∧ (∀ mode : LayerCompareMode,
          GetCompareIndexes { state with CompareMode := mode } = GetCompareIndexes state)
      ∧ (GetCompareIndexes state).2.1 ≠ state.LayerIndex - 1
      ∧ (GetCompareIndexes state).2.1 ≠ wrapInt (state.LayerIndex - 1) := by
  have hval : GetCompareIndexes state
      = (state.LayerIndex, state.LayerIndex, state.LayerIndex, state.LayerIndex) := by
    simp [GetCompareIndexes, heq]
  refine ⟨hval, ?_, ?_, ?_⟩
  · intro mode
    simp [GetCompareIndexes, heq]
  · rw [hval]
    show state.LayerIndex ≠ state.LayerIndex - 1
    omega
  · rw [hval]
    show state.LayerIndex ≠ wrapInt (state.LayerIndex - 1)
    unfold wrapInt
    omega

/-- Witness of C7: anchor = selection = 2 gives `(2, 2, 2, 2)` in both modes. -/
theorem GetCompareIndexes_rule1_witness :
    GetCompareIndexes ⟨2, [], LayerCompareMode.CompareSingleLayer, 2⟩ = (2, 2, 2, 2)
      ∧ GetCompareIndexes ⟨2, [], LayerCompareMode.CompareAllLayers, 2⟩ = (2, 2, 2, 2) :=
  ⟨(GetCompareIndexes_rule1 ⟨2, [], LayerCompareMode.CompareSingleLayer, 2⟩ rfl).1,
   (GetCompareIndexes_rule1 ⟨2, [], LayerCompareMode.CompareAllLayers, 2⟩ rfl).1⟩

/-- C8. Rule 2 of `GetCompareIndexes`: in `CompareSingleLayer` mode with `LayerIndex = s`
different from `CompareStartIndex = a` the result is `(a, s - 1, s, s)`, where `s - 1` is the
subtraction of Go `int`; `topTreeStart - bottomTreeStop` evaluates to `1` whatever `a` and `s`
are, `topTreeStop` is `s`, and for every representable `s` above the minimum the subtraction
is exact, so that the result is `(a, s - 1, s, s)` over the integers. -/
theorem GetCompareIndexes_rule2 (state : LayerSetState)
    (hmode : state.CompareMode = LayerCompareMode.CompareSingleLayer)
    (hne : state.LayerIndex ≠ state.CompareStartIndex) :
    GetCompareIndexes state
        = (state.CompareStartIndex, wrapInt (state.LayerIndex - 1), state.LayerIndex,
            state.LayerIndex)
      ∧ wrapInt ((GetCompareIndexes state).2.2.1 - (GetCompareIndexes state).2.1) = 1
      ∧ (GetCompareIndexes state).2.2.2 = state.LayerIndex
      ∧ (minInt < state.LayerIndex → state.LayerIndex ≤ maxInt →
          GetCompareIndexes state
              = (state.CompareStartIndex, state.LayerIndex - 1, state.LayerIndex,
                  state.LayerIndex)
            ∧ (GetCompareIndexes state).2.2.1 - (GetCompareIndexes state).2.1 = 1) := by
  have hval : GetCompareIndexes state
      = (state.CompareStartIndex, wrapInt (state.LayerIndex - 1), state.LayerIndex,
          state.LayerIndex) := by
    simp [GetCompareIndexes, hmode, hne]
  refine ⟨hval, ?_, ?_, ?_⟩
  · rw [hval]
    show wrapInt (state.LayerIndex - wrapInt (state.LayerIndex - 1)) = 1
    rw [wrapInt_sub_wrapInt]
    exact wrapInt_of_range 1 (by decide) (by decide)
  · rw [hval]
  · intro hlo hhi
    have hw : wrapInt (state.LayerIndex - 1) = state.LayerIndex - 1 := by
      apply wrapInt_of_range
      · unfold minInt at *; omega
      · unfold maxInt at *; omega
    rw [hval, hw]
    refine ⟨rfl, ?_⟩
    show state.LayerIndex - (state.LayerIndex - 1) = 1
    omega

/-- Witness of C8: `a = 1`, `s = 3` in `CompareSingleLayer` mode gives `(1, 2, 3, 3)`. -/
theorem GetCompareIndexes_rule2_witness :
    GetCompareIndexes ⟨3, [], LayerCompareMode.CompareSingleLayer, 1⟩ = (1, 2, 3, 3) :=
  ((GetCompareIndexes_rule2 ⟨3, [], LayerCompareMode.CompareSingleLayer, 1⟩ rfl
      (by decide)).2.2.2 (by decide) (by decide)).1

/-- C9. Rule 3 of `GetCompareIndexes`: in `CompareAllLayers` mode with `LayerIndex = s`
different from `CompareStartIndex = a` the result is `(a, a, a + 1, s)`, where `a + 1` is the
addition of Go `int`; `bottomTreeStop` and `topTreeStart` are the same for every other
selection `s'` different from `a`, `topTreeStop` is `s`, and for every representable `a` below
the maximum the addition is exact, so that the result is `(a, a, a + 1, s)` over the
integers. -/
theorem GetCompareIndexes_rule3 (state : LayerSetState)
    (hmode : state.CompareMode = LayerCompareMode.CompareAllLayers)
    (hne : state.LayerIndex ≠ state.CompareStartIndex) :
    GetCompareIndexes state
        = (state.CompareStartIndex, state.CompareStartIndex,
            wrapInt (state.CompareStartIndex + 1), state.LayerIndex)
      ∧ (∀ s' : Int, s' ≠ state.CompareStartIndex →
          (GetCompareIndexes { state with LayerIndex := s' }).2.1
              = (GetCompareIndexes state).2.1
            ∧ (GetCompareIndexes { state with LayerIndex := s' }).2.2.1
              = (GetCompareIndexes state).2.2.1)
      ∧ (GetCompareIndexes state).2.2.2 = state.LayerIndex
      ∧ (minInt ≤ state.CompareStartIndex → state.CompareStartIndex < maxInt →
          GetCompareIndexes state
            = (state.CompareStartIndex, state.CompareStartIndex,
                state.CompareStartIndex + 1, state.LayerIndex)) := by
  have hval : GetCompareIndexes state
      = (state.CompareStartIndex, state.CompareStartIndex,
          wrapInt (state.CompareStartIndex + 1), state.LayerIndex) := by
    simp [GetCompareIndexes, hmode, hne]
  refine ⟨hval, ?_, ?_, ?_⟩
  · intro s' hs'
    rw [hval]
    simp [GetCompareIndexes, hmode, hs']
  · rw [hval]
  · intro hlo hhi
    have hw : wrapInt (state.CompareStartIndex + 1) = state.CompareStartIndex + 1 := by
      apply wrapInt_of_range
      · unfold minInt at *; omega
      · unfold maxInt at *; omega
    rw [hval, hw]

/-- Witness of C9: `a = 1`, `s = 3` in `CompareAllLayers` mode gives `(1, 1, 2, 3)`. -/
theorem GetCompareIndexes_rule3_witness :
    GetCompareIndexes ⟨3, [], LayerCompareMode.CompareAllLayers, 1⟩ = (1, 1, 2, 3) :=
  (GetCompareIndexes_rule3 ⟨3, [], LayerCompareMode.CompareAllLayers, 1⟩ rfl
      (by decide)).2.2.2 (by decide) (by decide)

/-- C10, as stated, fails: with selection `s = 0`, anchor `a = 1` (both non-negative) and
`CompareSingleLayer` mode the result is `(1, -1, 0, 0)`, whose `bottomTreeStop` is negative. -/
theorem GetCompareIndexes_nonneg_counterexample :
    (0 : Int) ≤ 0 ∧ (0 : Int) ≤ 1
      ∧ GetCompareIndexes ⟨0, [], LayerCompareMode.CompareSingleLayer, 1⟩ = (1, -1, 0, 0)
      ∧ ¬ allNonNegative (GetCompareIndexes ⟨0, [], LayerCompareMode.CompareSingleLayer, 1⟩) := by
  decide

/-- C10, amended. For representable `s ≥ 0` and `a ≥ 0`, all four results of
`GetCompareIndexes` are non-negative except in exactly two situations, both with `s ≠ a`:
`CompareSingleLayer` mode with `s = 0` (then `bottomTreeStop = -1`), and `CompareAllLayers`
mode with `a` the largest `int` (then `a + 1` wraps around).  In particular they are
non-negative whenever `0 ≤ a ≤ s`. -/
theorem GetCompareIndexes_nonneg (state : LayerSetState)
    (hs : 0 ≤ state.LayerIndex) (hs' : state.LayerIndex ≤ maxInt)
    (ha : 0 ≤ state.CompareStartIndex) (ha' : state.CompareStartIndex ≤ maxInt) :
    (allNonNegative (GetCompareIndexes state) ↔
        ¬ (state.LayerIndex ≠ state.CompareStartIndex
            ∧ ((state.CompareMode = LayerCompareMode.CompareSingleLayer ∧ state.LayerIndex = 0)
              ∨ (state.CompareMode = LayerCompareMode.CompareAllLayers
                  ∧ state.CompareStartIndex = maxInt))))
      ∧ (state.CompareStartIndex ≤ state.LayerIndex →
          allNonNegative (GetCompareIndexes state)) := by
  have key : allNonNegative (GetCompareIndexes state) ↔
        ¬ (state.LayerIndex ≠ state.CompareStartIndex
            ∧ ((state.CompareMode = LayerCompareMode.CompareSingleLayer ∧ state.LayerIndex = 0)
              ∨ (state.CompareMode = LayerCompareMode.CompareAllLayers
                  ∧ state.CompareStartIndex = maxInt))) := by
    by_cases heq : state.LayerIndex = state.CompareStartIndex
    · simp [GetCompareIndexes, allNonNegative, heq, ha]
    · cases hmode : state.CompareMode with
      | CompareSingleLayer =>
        have hval : GetCompareIndexes state
            = (state.CompareStartIndex, wrapInt (state.LayerIndex - 1), state.LayerIndex,
                state.LayerIndex) := by
          simp [GetCompareIndexes, hmode, heq]
        rw [hval]
        constructor
        · rintro ⟨_, h2, _, _⟩ ⟨_, hbad⟩
          rcases hbad with ⟨_, h0⟩ | ⟨hm, _⟩
          · rw [h0] at h2
            have h2' : (0 : Int) ≤ wrapInt (0 - 1) := h2
            exact absurd h2' (by decide)
          · exact LayerCompareMode.noConfusion hm
        · intro hnot
          have h0 : state.LayerIndex ≠ 0 := fun h0 => hnot ⟨heq, Or.inl ⟨rfl, h0⟩⟩
          have hw : wrapInt (state.LayerIndex - 1) = state.LayerIndex - 1 := by
            apply wrapInt_of_range
            · unfold minInt; omega
            · unfold maxInt at *; omega
          rw [hw]
          exact ⟨ha, by show 0 ≤ state.LayerIndex - 1; omega, hs, hs⟩
      | CompareAllLayers =>
        have hval : GetCompareIndexes state
            = (state.CompareStartIndex, state.CompareStartIndex,
                wrapInt (state.CompareStartIndex + 1), state.LayerIndex) := by
          simp [GetCompareIndexes, hmode, heq]
        rw [hval]
        constructor
        · rintro ⟨_, _, h3, _⟩ ⟨_, hbad⟩
          rcases hbad with ⟨hm, _⟩ | ⟨_, hmax⟩
          · exact LayerCompareMode.noConfusion hm
          · rw [hmax] at h3
            have h3' : (0 : Int) ≤ wrapInt (maxInt + 1) := h3
            exact absurd h3' (by decide)
        · intro hnot
          have hmax : state.CompareStartIndex ≠ maxInt :=
            fun hmax => hnot ⟨heq, Or.inr ⟨rfl, hmax⟩⟩
          have hw : wrapInt (state.CompareStartIndex + 1) = state.CompareStartIndex + 1 := by
            apply wrapInt_of_range
            · unfold minInt; omega
            · unfold maxInt at *; omega
          rw [hw]
          exact ⟨ha, ha, by show 0 ≤ state.CompareStartIndex + 1; omega, hs⟩
  refine ⟨key, fun hle => key.mpr ?_⟩
  rintro ⟨hne, h | h⟩
  · omega
  · have := h.2
    omega

/-- Witness of the amended C10: selection 3, anchor 1, `CompareSingleLayer` mode. -/
theorem GetCompareIndexes_nonneg_witness :
    allNonNegative (GetCompareIndexes ⟨3, [], LayerCompareMode.CompareSingleLayer, 1⟩) :=
  (GetCompareIndexes_nonneg ⟨3, [], LayerCompareMode.CompareSingleLayer, 1⟩
    (by decide) (by decide) (by decide) (by decide)).2 (by decide)


/-! ## Theorems: the loop of `AnalyzeCNB` -/

theorem addSize_other (layers : Addr → Layer) (c l a : Addr) (h : a ≠ c) :
    addSize layers c l a = layers a := by
  simp [addSize, Function.update, h]

theorem addSize_self (layers : Addr → Layer) (c l : Addr) :
    addSize layers c l c
      = { layers c with Size := wrapU64 ((layers c).Size + (layers l).Size) } := by
  simp [addSize]

theorem addSize_frame (layers : Addr → Layer) (c l a : Addr) :
    addSize layers c l a = { layers a with Size := (addSize layers c l a).Size } := by
  by_cases h : a = c
  · subst h
    simp [addSize_self]
  · simp [addSize_other _ _ _ _ h]

theorem addSize_Digest (layers : Addr → Layer) (c l a : Addr) :
    (addSize layers c l a).Digest = (layers a).Digest := by
  rw [addSize_frame]

/-- The first iteration only records the accumulator. -/
theorem loopBody_first {σ : Type} (Stack : StackFn σ) (top : String) (s : LoopState σ)
    (l t : Addr) (hc : s.cur = none) :
    loopBody Stack top s l t = ({ s with cur := some (l, t) }, false) := by
  simp [loopBody, hc]

/-- An iteration in pass-through mode. -/
theorem loopBody_pass {σ : Type} (Stack : StackFn σ) (top : String) (s : LoopState σ)
    (l t c tc : Addr) (hc : s.cur = some (c, tc)) (hs : s.isStack = false) :
    loopBody Stack top s l t
      = (if (s.layers l).Digest = top then
          { s with newLayers := s.newLayers ++ [c] ++ [l]
                   newRefTree := s.newRefTree ++ [tc] ++ [t] }
        else
          { s with newLayers := s.newLayers ++ [l], newRefTree := s.newRefTree ++ [t] },
        false) := by
  by_cases hd : (s.layers l).Digest = top
  · simp [loopBody, hc, hs, hd]
  · simp [loopBody, hc, hs, hd]

/-- An iteration while still in the stack. -/
theorem loopBody_stack {σ : Type} (Stack : StackFn σ) (top : String) (s : LoopState σ)
    (l t c tc : Addr) (hc : s.cur = some (c, tc)) (hs : s.isStack = true) :
    loopBody Stack top s l t
      = if (Stack s.trees tc t).2 = true then
          ({ s with layers := addSize s.layers c l, trees := (Stack s.trees tc t).1 }, true)
        else if (s.layers l).Digest = top then
          ({ s with layers := addSize s.layers c l, trees := (Stack s.trees tc t).1
                    isStack := false
                    newLayers := s.newLayers ++ [c] ++ [l]
                    newRefTree := s.newRefTree ++ [tc] ++ [t] }, false)
        else
          ({ s with layers := addSize s.layers c l, trees := (Stack s.trees tc t).1 }, false) := by
  by_cases hf : (Stack s.trees tc t).2 = true
  · simp [loopBody, hc, hs, hf]
  · by_cases hd : (s.layers l).Digest = top
    · simp [loopBody, hc, hs, hf, hd, addSize_Digest]
    · simp [loopBody, hc, hs, hf, hd, addSize_Digest]

/-- In pass-through mode the loop never fails and never touches the memory. -/
theorem loop_pass {σ : Type} (Stack : StackFn σ) (top : String) (c tc : Addr) :
    ∀ (xs : List (Addr × Addr)) (s : LoopState σ), s.cur = some (c, tc) → s.isStack = false →
      (loop Stack top s xs).2 = false
        ∧ (loop Stack top s xs).1.layers = s.layers
        ∧ (loop Stack top s xs).1.trees = s.trees
        ∧ ((∀ p ∈ xs, (s.layers p.1).Digest ≠ top) →
            (loop Stack top s xs).1.newLayers = s.newLayers ++ xs.map Prod.fst
              ∧ (loop Stack top s xs).1.newRefTree = s.newRefTree ++ xs.map Prod.snd) := by
  intro xs
  induction xs with
  | nil => intro s _ _; simp [loop]
  | cons p rest ih =>
    intro s hc hs
    obtain ⟨l, t⟩ := p
    have hb := loopBody_pass Stack top s l t c tc hc hs
    have h2 : (loopBody Stack top s l t).2 = false := by rw [hb]
    have hc1 : (loopBody Stack top s l t).1.cur = some (c, tc) := by
      rw [hb]; split <;> exact hc
    have hs1 : (loopBody Stack top s l t).1.isStack = false := by
      rw [hb]; split <;> exact hs
    have hl1 : (loopBody Stack top s l t).1.layers = s.layers := by
      rw [hb]; split <;> rfl
    have ht1 : (loopBody Stack top s l t).1.trees = s.trees := by
      rw [hb]; split <;> rfl
    obtain ⟨i1, i2, i3, i4⟩ := ih _ hc1 hs1
    have hloop : loop Stack top s ((l, t) :: rest)
        = loop Stack top (loopBody Stack top s l t).1 rest := by
      simp [loop, h2]
    rw [hloop]
    refine ⟨i1, i2.trans hl1, i3.trans ht1, ?_⟩
    intro hnd
    have hl : (s.layers l).Digest ≠ top := hnd (l, t) (List.mem_cons_self _ _)
    have hrest : ∀ p ∈ rest, ((loopBody Stack top s l t).1.layers p.1).Digest ≠ top := by
      intro p hp
      rw [hl1]
      exact hnd p (List.mem_cons_of_mem _ hp)
    obtain ⟨j1, j2⟩ := i4 hrest
    rw [j1, j2, hb]
    simp [hl]

/-- Whatever the mode, the loop keeps its accumulator, changes no layer other than the
accumulator, and changes nothing but `Size` in the accumulator. -/
theorem loop_frame {σ : Type} (Stack : StackFn σ) (top : String) (c tc : Addr) :
    ∀ (xs : List (Addr × Addr)) (s : LoopState σ), s.cur = some (c, tc) →
      (loop Stack top s xs).1.cur = some (c, tc)
        ∧ (∀ a, a ≠ c → (loop Stack top s xs).1.layers a = s.layers a)
        ∧ (∀ a, (loop Stack top s xs).1.layers a
            = { s.layers a with Size := ((loop Stack top s xs).1.layers a).Size }) := by
  intro xs
  induction xs with
  | nil => intro s hc; simp [loop, hc]
  | cons p rest ih =>
    intro s hc
    obtain ⟨l, t⟩ := p
    have hbody : (loopBody Stack top s l t).1.cur = some (c, tc)
        ∧ ((loopBody Stack top s l t).1.layers = s.layers
            ∨ (loopBody Stack top s l t).1.layers = addSize s.layers c l) := by
      cases hs : s.isStack with
      | false =>
        rw [loopBody_pass Stack top s l t c tc hc hs]
        split <;> exact ⟨hc, Or.inl rfl⟩
      | true =>
        rw [loopBody_stack Stack top s l t c tc hc hs]
        split
        · exact ⟨hc, Or.inr rfl⟩
        · split <;> exact ⟨hc, Or.inr rfl⟩
    have hother : ∀ a, a ≠ c → (loopBody Stack top s l t).1.layers a = s.layers a := by
      intro a ha
      rcases hbody.2 with h | h
      · rw [h]
      · rw [h, addSize_other _ _ _ _ ha]
    have hframe : ∀ a, (loopBody Stack top s l t).1.layers a
        = { s.layers a with Size := ((loopBody Stack top s l t).1.layers a).Size } := by
      intro a
      rcases hbody.2 with h | h
      · rw [h]
      · rw [h]; exact addSize_frame _ _ _ _
    by_cases h2 : (loopBody Stack top s l t).2 = true
    · have hloop : loop Stack top s ((l, t) :: rest) = loopBody Stack top s l t := by
        simp [loop, h2]
      rw [hloop]
      exact ⟨hbody.1, hother, hframe⟩
    · have hloop : loop Stack top s ((l, t) :: rest)
          = loop Stack top (loopBody Stack top s l t).1 rest := by
        simp [loop, h2]
      rw [hloop]
      obtain ⟨i1, i2, i3⟩ := ih _ hbody.1
      refine ⟨i1, ?_, ?_⟩
      · intro a ha
        rw [i2 a ha, hother a ha]
      · intro a
        rw [i3 a]
        rw [hframe a]

theorem wrapU64_add_wrapU64 (x a b : Nat) :
    wrapU64 (wrapU64 (x + a) + b) = wrapU64 (x + (a + b)) := by
  unfold wrapU64
  omega

/-- When the loop fails in stack mode, the accumulator has already grown by the sizes of the
layers up to and including the one whose `Stack` call failed. -/
theorem loop_fail_size {σ : Type} (Stack : StackFn σ) (top : String) (c tc : Addr) :
    ∀ (xs : List (Addr × Addr)) (s : LoopState σ), s.cur = some (c, tc) → s.isStack = true →
      c ∉ xs.map Prod.fst → (loop Stack top s xs).2 = true →
      ∃ j, j < xs.length
        ∧ ((loop Stack top s xs).1.layers c).Size
            = wrapU64 ((s.layers c).Size
                + ((xs.take (j + 1)).map (fun p => (s.layers p.1).Size)).sum) := by
  intro xs
  induction xs with
  | nil => intro s _ _ _ hf; simp [loop] at hf
  | cons p rest ih =>
    intro s hc hs hnot hf
    obtain ⟨l, t⟩ := p
    have hlc : l ≠ c := by
      intro h
      apply hnot
      simp [h]
    have hrest : c ∉ rest.map Prod.fst := by
      intro h
      apply hnot
      simp only [List.map_cons, List.mem_cons]
      exact Or.inr h
    have hb := loopBody_stack Stack top s l t c tc hc hs
    by_cases hfail : (Stack s.trees tc t).2 = true
    · rw [if_pos hfail] at hb
      have hloop : loop Stack top s ((l, t) :: rest) = loopBody Stack top s l t := by
        simp [loop, hb]
      refine ⟨0, by simp, ?_⟩
      rw [hloop, hb]
      simp [addSize_self]
    · rw [if_neg hfail] at hb
      by_cases hd : (s.layers l).Digest = top
      · rw [if_pos hd] at hb
        have hloop : loop Stack top s ((l, t) :: rest)
            = loop Stack top (loopBody Stack top s l t).1 rest := by
          simp [loop, hb]
        rw [hloop] at hf
        have hpass := (loop_pass Stack top c tc rest (loopBody Stack top s l t).1
          (by rw [hb]; exact hc) (by rw [hb])).1
        rw [hpass] at hf
        exact absurd hf (by decide)
      · rw [if_neg hd] at hb
        have hloop : loop Stack top s ((l, t) :: rest)
            = loop Stack top (loopBody Stack top s l t).1 rest := by
          simp [loop, hb]
        rw [hloop] at hf ⊢
        obtain ⟨j, hj, hsize⟩ := ih (loopBody Stack top s l t).1 (by rw [hb]; exact hc)
          (by rw [hb]; exact hs) hrest hf
        refine ⟨j + 1, by simp; omega, ?_⟩
        rw [hsize, hb]
        simp only [List.take_succ_cons, List.map_cons, List.sum_cons]
        rw [addSize_self]
        simp only
        have hmap : (rest.take (j + 1)).map (fun p => (addSize s.layers c l p.1).Size)
            = (rest.take (j + 1)).map (fun p => (s.layers p.1).Size) := by
          apply List.map_congr_left
          intro p hp
          have hp' : p ∈ rest := List.mem_of_mem_take hp
          have hpc : p.1 ≠ c := by
            intro h
            apply hrest
            rw [← h]
            exact List.mem_map_of_mem _ hp'
          rw [addSize_other _ _ _ _ hpc]
        rw [hmap, wrapU64_add_wrapU64]

/-! ## Theorems: `AnalyzeCNB` -/

/-- C5. Length mismatch in `AnalyzeCNB`: when `len(analysis.Layers)` differs from
`len(analysis.RefTrees)` the call returns an error and a nil result and leaves the whole
memory (every layer, every tree, and the fields `Layers` and `RefTrees` of the analysis) as it
was; the error is the mismatched-lengths error as soon as the two `pack` calls succeed.
Conversely, with equal lengths the mismatched-lengths error is never returned. -/
theorem AnalyzeCNB_length_mismatch {σ : Type} (pack : Pack) (Stack : StackFn σ)
    (m : Memory σ) (imageName : String) :
    (m.analysis.Layers.length ≠ m.analysis.RefTrees.length →
        (AnalyzeCNB pack Stack m imageName).err ≠ none
          ∧ (AnalyzeCNB pack Stack m imageName).result = none
          ∧ (AnalyzeCNB pack Stack m imageName).memory = m
          ∧ (∀ top, pack.NewClient = none → pack.InspectImage imageName = Except.ok top →
              (AnalyzeCNB pack Stack m imageName).err
                = some (CNBError.mismatchedLengths m.analysis.Layers.length
                    m.analysis.RefTrees.length)))
      ∧ (m.analysis.Layers.length = m.analysis.RefTrees.length →
          ∀ a b, (AnalyzeCNB pack Stack m imageName).err
            ≠ some (CNBError.mismatchedLengths a b)) := by
  constructor
  · intro hlen
    cases hN : pack.NewClient with
    | some e => simp [AnalyzeCNB, hN]
    | none =>
      cases hI : pack.InspectImage imageName with
      | error e => simp [AnalyzeCNB, hN, hI]
      | ok top => simp [AnalyzeCNB, hN, hI, hlen]
  · intro hlen a b
    cases hN : pack.NewClient with
    | some e => simp [AnalyzeCNB, hN]
    | none =>
      cases hI : pack.InspectImage imageName with
      | error e => simp [AnalyzeCNB, hN, hI]
      | ok top =>
        simp only [AnalyzeCNB, hN, hI, hlen, ne_eq, not_true_eq_false, if_false]
        split <;> simp

/-- Witness of C5: two layers and three trees. -/
theorem AnalyzeCNB_length_mismatch_witness :
    (AnalyzeCNB packTopBB stackOk memMismatch "img").err ≠ none
      ∧ (AnalyzeCNB packTopBB stackOk memMismatch "img").result = none
      ∧ (AnalyzeCNB packTopBB stackOk memMismatch "img").memory = memMismatch
      ∧ (AnalyzeCNB packTopBB stackOk memMismatch "img").err
          = some (CNBError.mismatchedLengths 2 3)
      ∧ (AnalyzeCNB packTopBB stackOk memTwo "img").err
          ≠ some (CNBError.mismatchedLengths 2 2) :=
  have h := (AnalyzeCNB_length_mismatch packTopBB stackOk memMismatch "img").1 (by decide)
  ⟨h.1, h.2.1, h.2.2.1, h.2.2.2 "sha256:bb" rfl rfl,
    (AnalyzeCNB_length_mismatch packTopBB stackOk memTwo "img").2 rfl 2 2⟩

/-- The loop of `AnalyzeCNB` on a non-empty input: the first iteration installs the
accumulator and the rest of the loop runs from there. -/
theorem loop_init_cons {σ : Type} (Stack : StackFn σ) (top : String) (m : Memory σ)
    (c tc : Addr) (xs : List (Addr × Addr)) :
    loop Stack top (loopInit m) ((c, tc) :: xs)
      = loop Stack top (loopAccum m c tc) xs := by
  have hb : loopBody Stack top (loopInit m) c tc = (loopAccum m c tc, false) :=
    loopBody_first Stack top (loopInit m) c tc rfl
  simp [loop, hb]

/-- C6, as stated, fails: with two layers of sizes 10 and 20 and a `Stack` call that reports
an error, `AnalyzeCNB` returns the stacking error and a nil result, but the first layer, whose
`Size` was 10 before the call, has `Size` 30 after it: the memory is not what it was. -/
theorem AnalyzeCNB_stack_failure_counterexample :
    memTwo.analysis.Layers.length = memTwo.analysis.RefTrees.length
      ∧ (AnalyzeCNB packTopBB stackFail memTwo "img").err = some CNBError.stackingTrees
      ∧ (AnalyzeCNB packTopBB stackFail memTwo "img").result = none
      ∧ (memTwo.layers 0).Size = 10
      ∧ ((AnalyzeCNB packTopBB stackFail memTwo "img").memory.layers 0).Size = 30
      ∧ (AnalyzeCNB packTopBB stackFail memTwo "img").memory.layers ≠ memTwo.layers := by
  refine ⟨by decide, by decide, by decide, by decide, by decide, ?_⟩
  intro h
  have h0 : ((AnalyzeCNB packTopBB stackFail memTwo "img").memory.layers 0).Size
      = (memTwo.layers 0).Size := by rw [h]
  revert h0
  decide

/-! ## Theorems: what the loop of `AnalyzeCNB` computes -/

theorem loop_append {σ : Type} (Stack : StackFn σ) (top : String) :
    ∀ (xs ys : List (Addr × Addr)) (s : LoopState σ),
      loop Stack top s (xs ++ ys)
        = if (loop Stack top s xs).2 = true then loop Stack top s xs
          else loop Stack top (loop Stack top s xs).1 ys := by
  intro xs
  induction xs with
  | nil => intro ys s; simp [loop]
  | cons p rest ih =>
    intro ys s
    obtain ⟨l, t⟩ := p
    by_cases h2 : (loopBody Stack top s l t).2 = true
    · simp [loop, h2]
    · simp [loop, h2, ih]

/-- While no layer carries the top digest and no `Stack` call fails, the loop stays in stack
mode, emits nothing, and adds every size onto the accumulator. -/
theorem loop_stack_ok {σ : Type} (Stack : StackFn σ) (top : String) (c tc : Addr) :
    ∀ (xs : List (Addr × Addr)) (s : LoopState σ), s.cur = some (c, tc) → s.isStack = true →
      (∀ p ∈ xs, (s.layers p.1).Digest ≠ top) → (loop Stack top s xs).2 = false →
      (loop Stack top s xs).1.isStack = true
        ∧ (loop Stack top s xs).1.newLayers = s.newLayers
        ∧ (loop Stack top s xs).1.newRefTree = s.newRefTree
        ∧ (c ∉ xs.map Prod.fst → (s.layers c).Size < 2 ^ 64 →
            ((loop Stack top s xs).1.layers c).Size
              = wrapU64 ((s.layers c).Size + (xs.map (fun p => (s.layers p.1).Size)).sum)) := by
  intro xs
  induction xs with
  | nil =>
    intro s _ hs _ _
    refine ⟨by simp [loop, hs], by simp [loop], by simp [loop], ?_⟩
    intro _ hsz
    simp only [loop, wrapU64, List.map_nil, List.sum_nil, Nat.add_zero]
    exact (Nat.mod_eq_of_lt hsz).symm
  | cons p rest ih =>
    intro s hc hs hnd hok
    obtain ⟨l, t⟩ := p
    have hl : (s.layers l).Digest ≠ top := hnd (l, t) (List.mem_cons_self _ _)
    have hb := loopBody_stack Stack top s l t c tc hc hs
    by_cases hfail : (Stack s.trees tc t).2 = true
    · rw [if_pos hfail] at hb
      have hloop : loop Stack top s ((l, t) :: rest) = loopBody Stack top s l t := by
        simp [loop, hb]
      rw [hloop, hb] at hok
      simp at hok
    · rw [if_neg hfail, if_neg hl] at hb
      have hloop : loop Stack top s ((l, t) :: rest)
          = loop Stack top (loopBody Stack top s l t).1 rest := by
        simp [loop, hb]
      rw [hloop] at hok ⊢
      have hrestd : ∀ p ∈ rest, (((loopBody Stack top s l t).1).layers p.1).Digest ≠ top := by
        intro p hp
        rw [hb]
        show (addSize s.layers c l p.1).Digest ≠ top
        rw [addSize_Digest]
        exact hnd p (List.mem_cons_of_mem _ hp)
      obtain ⟨i1, i2, i3, i4⟩ := ih (loopBody Stack top s l t).1 (by rw [hb]; exact hc)
        (by rw [hb]; exact hs) hrestd hok
      refine ⟨i1, by rw [i2, hb], by rw [i3, hb], ?_⟩
      intro hnot _
      have hlc : l ≠ c := by
        intro h
        apply hnot
        simp [h]
      have hrest : c ∉ rest.map Prod.fst := by
        intro h
        apply hnot
        simp only [List.map_cons, List.mem_cons]
        exact Or.inr h
      have hsz1 : (((loopBody Stack top s l t).1).layers c).Size < 2 ^ 64 := by
        rw [hb]
        show (addSize s.layers c l c).Size < 2 ^ 64
        rw [addSize_self]
        exact Nat.mod_lt _ (by decide)
      rw [i4 hrest hsz1, hb]
      simp only [List.map_cons, List.sum_cons]
      rw [addSize_self]
      simp only
      have hmap : rest.map (fun p => (addSize s.layers c l p.1).Size)
          = rest.map (fun p => (s.layers p.1).Size) := by
        apply List.map_congr_left
        intro p hp
        have hpc : p.1 ≠ c := by
          intro h
          apply hrest
          rw [← h]
          exact List.mem_map_of_mem _ hp
        rw [addSize_other _ _ _ _ hpc]
      rw [hmap, wrapU64_add_wrapU64]

/-- A call of `AnalyzeCNB` on a non-empty input that returns no error: the loop did not fail
and its final state is what the call leaves behind. -/
theorem AnalyzeCNB_success {σ : Type} (pack : Pack) (Stack : StackFn σ) (m : Memory σ)
    (imageName top : String) (c tc : Addr) (rest trest : List Addr)
    (hN : pack.NewClient = none) (hI : pack.InspectImage imageName = Except.ok top)
    (hL : m.analysis.Layers = c :: rest) (hT : m.analysis.RefTrees = tc :: trest)
    (hlen : rest.length = trest.length)
    (hok : (AnalyzeCNB pack Stack m imageName).err = none) :
    (loop Stack top (loopAccum m c tc) (rest.zip trest)).2 = false
      ∧ (AnalyzeCNB pack Stack m imageName).memory.layers
          = (loop Stack top (loopAccum m c tc) (rest.zip trest)).1.layers
      ∧ (AnalyzeCNB pack Stack m imageName).memory.trees
          = (loop Stack top (loopAccum m c tc) (rest.zip trest)).1.trees
      ∧ (AnalyzeCNB pack Stack m imageName).memory.analysis.Layers
          = (loop Stack top (loopAccum m c tc) (rest.zip trest)).1.newLayers
      ∧ (AnalyzeCNB pack Stack m imageName).memory.analysis.RefTrees
          = (loop Stack top (loopAccum m c tc) (rest.zip trest)).1.newRefTree
      ∧ (AnalyzeCNB pack Stack m imageName).result
          = some (AnalyzeCNB pack Stack m imageName).memory.analysis := by
  have hlen' : m.analysis.Layers.length = m.analysis.RefTrees.length := by
    rw [hL, hT]; simp [hlen]
  have hzip : loop Stack top (loopInit m) (m.analysis.Layers.zip m.analysis.RefTrees)
      = loop Stack top (loopAccum m c tc) (rest.zip trest) := by
    rw [hL, hT, List.zip_cons_cons, loop_init_cons]
  by_cases hfail : (loop Stack top (loopAccum m c tc) (rest.zip trest)).2 = true
  · simp [AnalyzeCNB, hN, hI, hlen', hzip, hfail] at hok
  · simp [AnalyzeCNB, hN, hI, hlen', hzip, hfail]

/-- What `AnalyzeCNB` does when no layer after the first carries the top digest of the base
image (whether or not the first layer carries it): on success both output sequences are
empty, only the first layer is changed, and its `Size` is the `uint64` sum of all sizes. -/
theorem AnalyzeCNB_no_match_after_first {σ : Type} (pack : Pack) (Stack : StackFn σ)
    (m : Memory σ) (imageName top : String) (c tc : Addr) (rest trest : List Addr)
    (hN : pack.NewClient = none) (hI : pack.InspectImage imageName = Except.ok top)
    (hL : m.analysis.Layers = c :: rest) (hT : m.analysis.RefTrees = tc :: trest)
    (hlen : rest.length = trest.length)
    (hd : ∀ a ∈ rest, (m.layers a).Digest ≠ top)
    (hok : (AnalyzeCNB pack Stack m imageName).err = none) :
    (AnalyzeCNB pack Stack m imageName).memory.analysis.Layers = []
      ∧ (AnalyzeCNB pack Stack m imageName).memory.analysis.RefTrees = []
      ∧ (∀ a, a ≠ c → (AnalyzeCNB pack Stack m imageName).memory.layers a = m.layers a)
      ∧ (c ∉ rest → (m.layers c).Size < 2 ^ 64 →
          ((AnalyzeCNB pack Stack m imageName).memory.layers c).Size
            = wrapU64 ((m.layers c).Size + (rest.map (fun a => (m.layers a).Size)).sum)) := by
  obtain ⟨h2, hl, _, hnl, hnt, _⟩ :=
    AnalyzeCNB_success pack Stack m imageName top c tc rest trest hN hI hL hT hlen hok
  have hzip : (rest.zip trest).map Prod.fst = rest :=
    List.map_fst_zip _ _ (le_of_eq hlen)
  have hdz : ∀ p ∈ rest.zip trest, ((loopAccum m c tc).layers p.1).Digest ≠ top := by
    intro p hp
    apply hd
    rw [← hzip]
    exact List.mem_map_of_mem _ hp
  obtain ⟨_, i2, i3, i4⟩ :=
    loop_stack_ok Stack top c tc (rest.zip trest) (loopAccum m c tc) rfl rfl hdz h2
  obtain ⟨_, f2, _⟩ := loop_frame Stack top c tc (rest.zip trest) (loopAccum m c tc) rfl
  refine ⟨by rw [hnl, i2]; rfl, by rw [hnt, i3]; rfl, ?_, ?_⟩
  · intro a ha
    rw [hl, f2 a ha]
    rfl
  · intro hnot hsz
    rw [hl, i4 (by rw [hzip]; exact hnot) hsz]
    have : (fun p : Addr × Addr => ((loopAccum m c tc).layers p.1).Size)
        = (fun a => (m.layers a).Size) ∘ Prod.fst := rfl
    rw [this, ← List.map_map, hzip]
    rfl

theorem loop_Digest {σ : Type} (Stack : StackFn σ) (top : String) (c tc : Addr)
    (xs : List (Addr × Addr)) (s : LoopState σ) (hc : s.cur = some (c, tc)) (a : Addr) :
    ((loop Stack top s xs).1.layers a).Digest = (s.layers a).Digest := by
  rw [(loop_frame Stack top c tc xs s hc).2.2 a]

/-- The iteration on the layer that carries the top digest, met in stack mode, and the
pass-through iterations after it: the layer is added onto the accumulator, then the
accumulator is emitted, then the layer itself, then every later layer. -/
theorem loop_match_then_pass {σ : Type} (Stack : StackFn σ) (top : String) (c tc l t : Addr)
    (ys : List (Addr × Addr)) (s : LoopState σ) (hc : s.cur = some (c, tc))
    (hs : s.isStack = true) (hdl : (s.layers l).Digest = top)
    (hdy : ∀ p ∈ ys, (s.layers p.1).Digest ≠ top)
    (hok : (loop Stack top s ((l, t) :: ys)).2 = false) :
    (loop Stack top s ((l, t) :: ys)).1.layers = addSize s.layers c l
      ∧ (loop Stack top s ((l, t) :: ys)).1.newLayers
          = s.newLayers ++ [c] ++ [l] ++ ys.map Prod.fst
      ∧ (loop Stack top s ((l, t) :: ys)).1.newRefTree
          = s.newRefTree ++ [tc] ++ [t] ++ ys.map Prod.snd := by
  have hb := loopBody_stack Stack top s l t c tc hc hs
  by_cases hfail : (Stack s.trees tc t).2 = true
  · rw [if_pos hfail] at hb
    have hloop : loop Stack top s ((l, t) :: ys) = loopBody Stack top s l t := by
      simp [loop, hb]
    rw [hloop, hb] at hok
    simp at hok
  · rw [if_neg hfail, if_pos hdl] at hb
    have hloop : loop Stack top s ((l, t) :: ys)
        = loop Stack top (loopBody Stack top s l t).1 ys := by
      simp [loop, hb]
    rw [hloop]
    have hdy' : ∀ p ∈ ys, (((loopBody Stack top s l t).1).layers p.1).Digest ≠ top := by
      intro p hp
      rw [hb]
      show (addSize s.layers c l p.1).Digest ≠ top
      rw [addSize_Digest]
      exact hdy p hp
    obtain ⟨_, p2, _, p4⟩ := loop_pass Stack top c tc ys (loopBody Stack top s l t).1
      (by rw [hb]; exact hc) (by rw [hb])
    obtain ⟨q1, q2⟩ := p4 hdy'
    refine ⟨by rw [p2, hb], by rw [q1, hb], by rw [q2, hb]⟩

/-- What `AnalyzeCNB` does when the layer `l` carrying the top digest of the base image comes
after the first layer `c`, with the layers `pre` between them and the layers `post` after it
(none of which carries that digest): on success the output is the accumulator `c`, then `l`
itself, then `post`; the trees likewise; only `c` is changed, and its `Size` is the `uint64`
sum of the sizes of `c`, `pre` and `l`. -/
theorem AnalyzeCNB_match_after_first {σ : Type} (pack : Pack) (Stack : StackFn σ)
    (m : Memory σ) (imageName top : String) (c tc l t : Addr)
    (pre tpre post tpost : List Addr)
    (hN : pack.NewClient = none) (hI : pack.InspectImage imageName = Except.ok top)
    (hL : m.analysis.Layers = c :: (pre ++ l :: post))
    (hT : m.analysis.RefTrees = tc :: (tpre ++ t :: tpost))
    (hpre : pre.length = tpre.length) (hpost : post.length = tpost.length)
    (hdpre : ∀ a ∈ pre, (m.layers a).Digest ≠ top)
    (hdl : (m.layers l).Digest = top)
    (hdpost : ∀ a ∈ post, (m.layers a).Digest ≠ top)
    (hok : (AnalyzeCNB pack Stack m imageName).err = none) :
    (AnalyzeCNB pack Stack m imageName).memory.analysis.Layers = c :: l :: post
      ∧ (AnalyzeCNB pack Stack m imageName).memory.analysis.RefTrees = tc :: t :: tpost
      ∧ (∀ a, a ≠ c → (AnalyzeCNB pack Stack m imageName).memory.layers a = m.layers a)
      ∧ (c ∉ pre → c ≠ l → (m.layers c).Size < 2 ^ 64 →
          ((AnalyzeCNB pack Stack m imageName).memory.layers c).Size
            = wrapU64 ((m.layers c).Size
                + ((pre ++ [l]).map (fun a => (m.layers a).Size)).sum)) := by
  have hlen : (pre ++ l :: post).length = (tpre ++ t :: tpost).length := by
    simp [hpre, hpost]
  obtain ⟨h2, hl, _, hnl, hnt, _⟩ :=
    AnalyzeCNB_success pack Stack m imageName top c tc _ _ hN hI hL hT hlen hok
  have hzip : (pre ++ l :: post).zip (tpre ++ t :: tpost)
      = pre.zip tpre ++ (l, t) :: post.zip tpost := by
    rw [List.zip_append hpre, List.zip_cons_cons]
  rw [hzip] at h2 hl hnl hnt
  rw [loop_append] at h2 hl hnl hnt
  have hzp : (pre.zip tpre).map Prod.fst = pre := List.map_fst_zip _ _ (le_of_eq hpre)
  have hzq : (post.zip tpost).map Prod.fst = post := List.map_fst_zip _ _ (le_of_eq hpost)
  have hzq' : (post.zip tpost).map Prod.snd = tpost :=
    List.map_snd_zip _ _ (le_of_eq hpost.symm)
  by_cases h1 : (loop Stack top (loopAccum m c tc) (pre.zip tpre)).2 = true
  · rw [if_pos h1] at h2
    rw [h1] at h2
    exact absurd h2 (by decide)
  rw [if_neg h1] at h2 hl hnl hnt
  have h1' : (loop Stack top (loopAccum m c tc) (pre.zip tpre)).2 = false := by
    simpa using h1
  have hdz : ∀ p ∈ pre.zip tpre, ((loopAccum m c tc).layers p.1).Digest ≠ top := by
    intro p hp
    apply hdpre
    rw [← hzp]
    exact List.mem_map_of_mem _ hp
  obtain ⟨i1, i2, i3, i4⟩ :=
    loop_stack_ok Stack top c tc (pre.zip tpre) (loopAccum m c tc) rfl rfl hdz h1'
  obtain ⟨f1, f2, _⟩ := loop_frame Stack top c tc (pre.zip tpre) (loopAccum m c tc) rfl
  have hdig1 : ∀ a, (((loop Stack top (loopAccum m c tc) (pre.zip tpre)).1).layers a).Digest
      = (m.layers a).Digest :=
    fun a => loop_Digest Stack top c tc (pre.zip tpre) (loopAccum m c tc) rfl a
  have hdq : ∀ p ∈ post.zip tpost,
      (((loop Stack top (loopAccum m c tc) (pre.zip tpre)).1).layers p.1).Digest ≠ top := by
    intro p hp
    rw [hdig1]
    apply hdpost
    rw [← hzq]
    exact List.mem_map_of_mem _ hp
  obtain ⟨g1, g2, g3⟩ := loop_match_then_pass Stack top c tc l t (post.zip tpost)
    (loop Stack top (loopAccum m c tc) (pre.zip tpre)).1 f1 i1 ((hdig1 l).trans hdl) hdq h2
  refine ⟨?_, ?_, ?_, ?_⟩
  · rw [hnl, g2, i2, hzq]
    rfl
  · rw [hnt, g3, i3, hzq']
    rfl
  · intro a ha
    rw [hl, g1, addSize_other _ _ _ _ ha, f2 a ha]
    rfl
  · intro hnot hcl hsz
    rw [hl, g1, addSize_self]
    simp only
    rw [i4 (by rw [hzp]; exact hnot) hsz, f2 l (Ne.symm hcl)]
    have : (fun p : Addr × Addr => ((loopAccum m c tc).layers p.1).Size)
        = (fun a => (m.layers a).Size) ∘ Prod.fst := rfl
    rw [this, ← List.map_map, hzp, wrapU64_add_wrapU64]
    simp [loopAccum]

/-- What `AnalyzeCNB` does on every input of exactly one layer and one tree (the `pack` calls
succeeding): no `Stack` call is made, no error is returned, the layer and the trees are left
alone, and both output sequences are empty. -/
theorem AnalyzeCNB_single_layer {σ : Type} (pack : Pack) (Stack : StackFn σ) (m : Memory σ)
    (imageName top : String) (c tc : Addr)
    (hN : pack.NewClient = none) (hI : pack.InspectImage imageName = Except.ok top)
    (hL : m.analysis.Layers = [c]) (hT : m.analysis.RefTrees = [tc]) :
    (AnalyzeCNB pack Stack m imageName).err = none
      ∧ (AnalyzeCNB pack Stack m imageName).memory.layers = m.layers
      ∧ (AnalyzeCNB pack Stack m imageName).memory.trees = m.trees
      ∧ (AnalyzeCNB pack Stack m imageName).memory.analysis.Layers = []
      ∧ (AnalyzeCNB pack Stack m imageName).memory.analysis.RefTrees = [] := by
  simp [AnalyzeCNB, hN, hI, hL, hT, loop, loopBody, loopInit]

/-! ## `AnalyzeCNB` on the inputs where it departs from the specification -/

/-- C1, the code at the failing input. Three layers of sizes 10, 20 and 30 with pairwise
distinct digests, the layer at position 1 carrying the top digest of the base image and every
`Stack` call succeeding: `AnalyzeCNB` returns three layers, of sizes 30, 20 and 30, namely
the accumulator, then the layer at position 1 once more, then the layer at position 2 (and
the three trees likewise), where the claim has the two layers of sizes 30 and 30. -/
theorem AnalyzeCNB_pass_through_failing_input :
    memThree.analysis.Layers.length = memThree.analysis.RefTrees.length
      ∧ (memThree.analysis.Layers.map (fun a => (memThree.layers a).Digest)).Nodup
      ∧ memThree.analysis.Layers.map (fun a => (memThree.layers a).Size) = [10, 20, 30]
      ∧ packTopBB.InspectImage "img" = Except.ok (memThree.layers 1).Digest
      ∧ (AnalyzeCNB packTopBB stackOk memThree "img").err = none
      ∧ (AnalyzeCNB packTopBB stackOk memThree "img").memory.analysis.Layers = [0, 1, 2]
      ∧ (AnalyzeCNB packTopBB stackOk memThree "img").memory.analysis.Layers.map
            (fun a => ((AnalyzeCNB packTopBB stackOk memThree "img").memory.layers a).Size)
          = [30, 20, 30]
      ∧ (AnalyzeCNB packTopBB stackOk memThree "img").memory.analysis.RefTrees = [0, 1, 2]
      ∧ (AnalyzeCNB packTopBB stackOk memThree "img").memory.analysis.RefTrees.map
            (AnalyzeCNB packTopBB stackOk memThree "img").memory.trees
          = [[0, 1], [1], [2]] :=
  ⟨by decide, by decide, by decide, rfl, by decide⟩

/-- C2, the code at the failing input. Three layers of sizes 10, 20 and 30 with pairwise
distinct digests, the layer at position 0 carrying the top digest of the base image and every
`Stack` call succeeding: `AnalyzeCNB` returns no layer at all, so the output has no first
layer, where the claim has a first layer of size 10; the first input layer has grown to 60. -/
theorem AnalyzeCNB_merged_size_failing_input :
    memThree.analysis.Layers.length = memThree.analysis.RefTrees.length
      ∧ (memThree.analysis.Layers.map (fun a => (memThree.layers a).Digest)).Nodup
      ∧ packTopAA.InspectImage "img" = Except.ok (memThree.layers 0).Digest
      ∧ (memThree.layers 0).Size = 10
      ∧ (AnalyzeCNB packTopAA stackOk memThree "img").err = none
      ∧ (AnalyzeCNB packTopAA stackOk memThree "img").memory.analysis.Layers.head? = none
      ∧ ((AnalyzeCNB packTopAA stackOk memThree "img").memory.layers 0).Size = 60 :=
  ⟨by decide, by decide, rfl, by decide⟩

/-- C3, the code at the failing input. Two layers with distinct digests, the first one
carrying the top digest of the base image: `AnalyzeCNB` is not a no-op.  Both output sequences
are empty instead of `[0, 1]`, the `Size` of the first layer goes from 10 to 30, and the tree
of the second layer is stacked into the tree of the first.  With the single layer of that
digest as the whole input the output sequences are empty as well. -/
theorem AnalyzeCNB_base_of_one_failing_input :
    memTwo.analysis.Layers = [0, 1] ∧ memTwo.analysis.RefTrees = [0, 1]
      ∧ (memTwo.analysis.Layers.map (fun a => (memTwo.layers a).Digest)).Nodup
      ∧ packTopAA.InspectImage "img" = Except.ok (memTwo.layers 0).Digest
      ∧ (AnalyzeCNB packTopAA stackOk memTwo "img").err = none
      ∧ (AnalyzeCNB packTopAA stackOk memTwo "img").memory.analysis.Layers = []
      ∧ (AnalyzeCNB packTopAA stackOk memTwo "img").memory.analysis.RefTrees = []
      ∧ (memTwo.layers 0).Size = 10
      ∧ ((AnalyzeCNB packTopAA stackOk memTwo "img").memory.layers 0).Size = 30
      ∧ memTwo.trees 0 = [0]
      ∧ (AnalyzeCNB packTopAA stackOk memTwo "img").memory.trees 0 = [0, 1]
      ∧ (AnalyzeCNB packTopAA stackOk memOne "img").memory.analysis.Layers = []
      ∧ (AnalyzeCNB packTopAA stackOk memOne "img").memory.analysis.RefTrees = [] :=
  ⟨by decide, by decide, by decide, rfl, by decide⟩

/-- C4, the code at the failing input. One layer and one tree: `AnalyzeCNB` returns no error
and makes no `Stack` call (a `Stack` that always fails goes unnoticed) and leaves the layer as
it was, but both output sequences are empty instead of holding the layer and the tree, whether
the layer carries the top digest of the base image or not. -/
theorem AnalyzeCNB_single_layer_failing_input :
    memOne.analysis.Layers = [0] ∧ memOne.analysis.RefTrees = [0]
      ∧ (AnalyzeCNB packTopAA stackFail memOne "img").err = none
      ∧ (AnalyzeCNB packTopAA stackFail memOne "img").result = some ⟨[], [], 10⟩
      ∧ (AnalyzeCNB packTopAA stackFail memOne "img").memory.analysis.Layers = []
      ∧ (AnalyzeCNB packTopAA stackFail memOne "img").memory.analysis.RefTrees = []
      ∧ (AnalyzeCNB packTopAA stackFail memOne "img").memory.layers 0 = memOne.layers 0
      ∧ (AnalyzeCNB packTopBB stackFail memOne "img").err = none
      ∧ (AnalyzeCNB packTopBB stackFail memOne "img").memory.analysis.Layers = []
      ∧ (AnalyzeCNB packTopBB stackFail memOne "img").memory.analysis.RefTrees = [] := by
  decide


/-! ## Theorems: which pairs the loop of `AnalyzeCNB` emits -/

theorem zip_map_fst_map_snd (ps : List (Addr × Addr)) :
    (ps.map Prod.fst).zip (ps.map Prod.snd) = ps := by
  induction ps with
  | nil => rfl
  | cons p rest ih => simp [ih]

/-- The two output sequences grow in lockstep: what the loop appends to `newLayers` and to
`newRefTree` are the two components of one list of pairs, each of which is the accumulator
pair or one of the pairs the loop runs over. -/
theorem loop_pairs {σ : Type} (Stack : StackFn σ) (top : String) (c tc : Addr) :
    ∀ (xs : List (Addr × Addr)) (s : LoopState σ), s.cur = some (c, tc) →
      ∃ ps : List (Addr × Addr),
        (loop Stack top s xs).1.newLayers = s.newLayers ++ ps.map Prod.fst
          ∧ (loop Stack top s xs).1.newRefTree = s.newRefTree ++ ps.map Prod.snd
          ∧ ∀ p ∈ ps, p = (c, tc) ∨ p ∈ xs := by
  intro xs
  induction xs with
  | nil =>
    intro s _
    exact ⟨[], by simp [loop], by simp [loop], by simp⟩
  | cons p rest ih =>
    intro s hc
    obtain ⟨l, t⟩ := p
    have hbody : (loopBody Stack top s l t).1.cur = some (c, tc)
        ∧ ∃ qs : List (Addr × Addr),
            (loopBody Stack top s l t).1.newLayers = s.newLayers ++ qs.map Prod.fst
              ∧ (loopBody Stack top s l t).1.newRefTree = s.newRefTree ++ qs.map Prod.snd
              ∧ ∀ q ∈ qs, q = (c, tc) ∨ q = (l, t) := by
      cases hs : s.isStack with
      | false =>
        rw [loopBody_pass Stack top s l t c tc hc hs]
        split
        · exact ⟨hc, [(c, tc), (l, t)], by simp, by simp, by simp⟩
        · exact ⟨hc, [(l, t)], by simp, by simp, by simp⟩
      | true =>
        rw [loopBody_stack Stack top s l t c tc hc hs]
        split
        · exact ⟨hc, [], by simp, by simp, by simp⟩
        · split
          · exact ⟨hc, [(c, tc), (l, t)], by simp, by simp, by simp⟩
          · exact ⟨hc, [], by simp, by simp, by simp⟩
    obtain ⟨hc1, qs, q1, q2, q3⟩ := hbody
    by_cases h2 : (loopBody Stack top s l t).2 = true
    · have hloop : loop Stack top s ((l, t) :: rest) = loopBody Stack top s l t := by
        simp [loop, h2]
      rw [hloop]
      refine ⟨qs, q1, q2, ?_⟩
      intro q hq
      rcases q3 q hq with h | h
      · exact Or.inl h
      · exact Or.inr (by rw [h]; exact List.mem_cons_self _ _)
    · have hloop : loop Stack top s ((l, t) :: rest)
          = loop Stack top (loopBody Stack top s l t).1 rest := by
        simp [loop, h2]
      rw [hloop]
      obtain ⟨ps, p1, p2, p3⟩ := ih _ hc1
      refine ⟨qs ++ ps, ?_, ?_, ?_⟩
      · rw [p1, q1]; simp
      · rw [p2, q2]; simp
      · intro q hq
        rcases List.mem_append.mp hq with h | h
        · rcases q3 q h with h | h
          · exact Or.inl h
          · exact Or.inr (by rw [h]; exact List.mem_cons_self _ _)
        · rcases p3 q h with h | h
          · exact Or.inl h
          · exact Or.inr (List.mem_cons_of_mem _ h)

/-- While no layer carries the top digest, the loop in stack mode makes exactly the calls of
`stackAll`: it fails when one of them does, and otherwise leaves the trees they leave. -/
theorem loop_stack_trees {σ : Type} (Stack : StackFn σ) (top : String) (c tc : Addr) :
    ∀ (xs : List (Addr × Addr)) (s : LoopState σ), s.cur = some (c, tc) → s.isStack = true →
      (∀ p ∈ xs, (s.layers p.1).Digest ≠ top) →
      (loop Stack top s xs).2 = (stackAll Stack s.trees tc (xs.map Prod.snd)).2
        ∧ (loop Stack top s xs).1.trees = (stackAll Stack s.trees tc (xs.map Prod.snd)).1 := by
  intro xs
  induction xs with
  | nil => intro s _ _ _; simp [loop, stackAll]
  | cons p rest ih =>
    intro s hc hs hnd
    obtain ⟨l, t⟩ := p
    have hl : (s.layers l).Digest ≠ top := hnd (l, t) (List.mem_cons_self _ _)
    have hb := loopBody_stack Stack top s l t c tc hc hs
    by_cases hfail : (Stack s.trees tc t).2 = true
    · rw [if_pos hfail] at hb
      have hloop : loop Stack top s ((l, t) :: rest) = loopBody Stack top s l t := by
        simp [loop, hb]
      rw [hloop, hb]
      simp [stackAll, hfail]
    · rw [if_neg hfail, if_neg hl] at hb
      have hloop : loop Stack top s ((l, t) :: rest)
          = loop Stack top (loopBody Stack top s l t).1 rest := by
        simp [loop, hb]
      have hrestd : ∀ p ∈ rest, (((loopBody Stack top s l t).1).layers p.1).Digest ≠ top := by
        intro p hp
        rw [hb]
        show (addSize s.layers c l p.1).Digest ≠ top
        rw [addSize_Digest]
        exact hnd p (List.mem_cons_of_mem _ hp)
      obtain ⟨i1, i2⟩ := ih (loopBody Stack top s l t).1 (by rw [hb]; exact hc)
        (by rw [hb]; exact hs) hrestd
      rw [hloop, i1, i2, hb]
      simp [stackAll, hfail]

/-- Every layer keeps every field but `Size` across a call of `AnalyzeCNB`, whatever the call
returns. -/
theorem AnalyzeCNB_frame {σ : Type} (pack : Pack) (Stack : StackFn σ) (m : Memory σ)
    (imageName : String) (a : Addr) :
    (AnalyzeCNB pack Stack m imageName).memory.layers a
      = { m.layers a with
          Size := ((AnalyzeCNB pack Stack m imageName).memory.layers a).Size } := by
  cases hN : pack.NewClient with
  | some e => simp [AnalyzeCNB, hN]
  | none =>
    cases hI : pack.InspectImage imageName with
    | error e => simp [AnalyzeCNB, hN, hI]
    | ok top =>
      by_cases hlen : m.analysis.Layers.length = m.analysis.RefTrees.length
      swap
      · simp [AnalyzeCNB, hN, hI, hlen]
      have hloop : (loop Stack top (loopInit m)
            (m.analysis.Layers.zip m.analysis.RefTrees)).1.layers a
          = { m.layers a with
              Size := ((loop Stack top (loopInit m)
                (m.analysis.Layers.zip m.analysis.RefTrees)).1.layers a).Size } := by
        cases hz : m.analysis.Layers.zip m.analysis.RefTrees with
        | nil => simp [loop, loopInit]
        | cons p rest =>
          obtain ⟨c, tc⟩ := p
          rw [loop_init_cons]
          exact (loop_frame Stack top c tc rest (loopAccum m c tc) rfl).2.2 a
      by_cases hfail : (loop Stack top (loopInit m)
          (m.analysis.Layers.zip m.analysis.RefTrees)).2 = true
      · simp only [AnalyzeCNB, hN, hI, hlen, hfail, ne_eq, not_true_eq_false, if_false,
          if_true]
        exact hloop
      · simp only [AnalyzeCNB, hN, hI, hlen, hfail, ne_eq, not_true_eq_false, if_false]
        exact hloop

/-- On success, the two output sequences of `AnalyzeCNB` are the two components of one list
of pairs, each of which is a pair `(Layers[i], RefTrees[i])` of the input. -/
theorem AnalyzeCNB_output_pairs {σ : Type} (pack : Pack) (Stack : StackFn σ) (m : Memory σ)
    (imageName : String) (hok : (AnalyzeCNB pack Stack m imageName).err = none) :
    ∃ ps : List (Addr × Addr),
      (AnalyzeCNB pack Stack m imageName).memory.analysis.Layers = ps.map Prod.fst
        ∧ (AnalyzeCNB pack Stack m imageName).memory.analysis.RefTrees = ps.map Prod.snd
        ∧ ∀ p ∈ ps, p ∈ m.analysis.Layers.zip m.analysis.RefTrees := by
  cases hN : pack.NewClient with
  | some e => simp [AnalyzeCNB, hN] at hok
  | none =>
    cases hI : pack.InspectImage imageName with
    | error e => simp [AnalyzeCNB, hN, hI] at hok
    | ok top =>
      by_cases hlen : m.analysis.Layers.length = m.analysis.RefTrees.length
      swap
      · simp [AnalyzeCNB, hN, hI, hlen] at hok
      by_cases hfail : (loop Stack top (loopInit m)
          (m.analysis.Layers.zip m.analysis.RefTrees)).2 = true
      · simp [AnalyzeCNB, hN, hI, hlen, hfail] at hok
      have hA1 : (AnalyzeCNB pack Stack m imageName).memory.analysis.Layers
          = (loop Stack top (loopInit m)
              (m.analysis.Layers.zip m.analysis.RefTrees)).1.newLayers := by
        simp [AnalyzeCNB, hN, hI, hlen, hfail]
      have hA2 : (AnalyzeCNB pack Stack m imageName).memory.analysis.RefTrees
          = (loop Stack top (loopInit m)
              (m.analysis.Layers.zip m.analysis.RefTrees)).1.newRefTree := by
        simp [AnalyzeCNB, hN, hI, hlen, hfail]
      rw [hA1, hA2]
      cases hz : m.analysis.Layers.zip m.analysis.RefTrees with
      | nil => exact ⟨[], by simp [loop, loopInit], by simp [loop, loopInit], by simp⟩
      | cons p rest =>
        obtain ⟨c, tc⟩ := p
        rw [loop_init_cons]
        obtain ⟨ps, p1, p2, p3⟩ := loop_pairs Stack top c tc rest (loopAccum m c tc) rfl
        refine ⟨ps, by rw [p1]; simp [loopAccum], by rw [p2]; simp [loopAccum], ?_⟩
        intro q hq
        rcases p3 q hq with h | h
        · rw [h]; exact List.mem_cons_self _ _
        · exact List.mem_cons_of_mem _ h

/-- C13, as stated, fails: four layers with `Index` 0, 1, 2, 3 in order and the top digest of
the base image on the layer at position 2, every `Stack` call succeeding: `AnalyzeCNB`
succeeds and the output layers have `Index` 0, 2, 3, so the layer at position 1 of the output
has `Index` 2. -/
theorem AnalyzeCNB_Index_contiguity_counterexample :
    memFour.analysis.Layers.map (fun a => (memFour.layers a).Index) = [0, 1, 2, 3]
      ∧ (AnalyzeCNB packTopCC stackOk memFour "img").err = none
      ∧ (AnalyzeCNB packTopCC stackOk memFour "img").memory.analysis.Layers.map
            (fun a => ((AnalyzeCNB packTopCC stackOk memFour "img").memory.layers a).Index)
          = [0, 2, 3]
      ∧ ¬ ((AnalyzeCNB packTopCC stackOk memFour "img").memory.analysis.Layers.map
            (fun a => ((AnalyzeCNB packTopCC stackOk memFour "img").memory.layers a).Index)
          = [0, 1, 2]) := by
  decide

/-- C13, amended. `AnalyzeCNB` never renumbers: for every successful call on an input whose
layers have `Index` 0, 1, .., n-1 in order, every layer has after the call the `Index` it had
before, and every layer of the output is a layer of the input and carries, as its `Index`,
the number of its position in the input. -/
theorem AnalyzeCNB_Index_unchanged {σ : Type} (pack : Pack) (Stack : StackFn σ)
    (m : Memory σ) (imageName : String)
    (hidx : ∀ (i : Nat) (a : Addr), m.analysis.Layers[i]? = some a →
      (m.layers a).Index = (i : Int))
    (hok : (AnalyzeCNB pack Stack m imageName).err = none) :
    (∀ a, ((AnalyzeCNB pack Stack m imageName).memory.layers a).Index = (m.layers a).Index)
      ∧ ∀ a ∈ (AnalyzeCNB pack Stack m imageName).memory.analysis.Layers,
          ∃ i : Nat, m.analysis.Layers[i]? = some a
            ∧ ((AnalyzeCNB pack Stack m imageName).memory.layers a).Index = (i : Int) := by
  have hframe : ∀ a,
      ((AnalyzeCNB pack Stack m imageName).memory.layers a).Index = (m.layers a).Index := by
    intro a
    rw [AnalyzeCNB_frame pack Stack m imageName a]
  refine ⟨hframe, ?_⟩
  intro a ha
  obtain ⟨ps, p1, _, p3⟩ := AnalyzeCNB_output_pairs pack Stack m imageName hok
  rw [p1] at ha
  obtain ⟨q, hq, hqa⟩ := List.mem_map.mp ha
  have hmem : a ∈ m.analysis.Layers := by
    rw [← hqa]
    exact (List.of_mem_zip (p3 q hq)).1
  obtain ⟨i, hi⟩ := List.getElem?_of_mem hmem
  exact ⟨i, hi, by rw [hframe a, hidx i a hi]⟩

/-- Witness of the amended C13: the four layers with the top digest at position 2; the layer
at address 2 is in the output and keeps `Index` 2. -/
theorem AnalyzeCNB_Index_unchanged_witness :
    ((AnalyzeCNB packTopCC stackOk memFour "img").memory.layers 2).Index
        = (memFour.layers 2).Index
      ∧ ∀ a ∈ (AnalyzeCNB packTopCC stackOk memFour "img").memory.analysis.Layers,
          ∃ i : Nat, memFour.analysis.Layers[i]? = some a
            ∧ ((AnalyzeCNB packTopCC stackOk memFour "img").memory.layers a).Index
                = (i : Int) :=
  have h := AnalyzeCNB_Index_unchanged packTopCC stackOk memFour "img"
    (by
      intro i a hi
      have hL : memFour.analysis.Layers = [0, 1, 2, 3] := rfl
      rw [hL] at hi
      rcases i with _ | _ | _ | _ | i
      · simp at hi; subst hi; rfl
      · simp at hi; subst hi; rfl
      · simp at hi; subst hi; rfl
      · simp at hi; subst hi; rfl
      · simp at hi)
    (by decide)
  ⟨h.1 2, h.2⟩

/-- C14. Alignment in `AnalyzeCNB`: for every input with `len(Layers) == len(RefTrees)` on
which every `Stack` call succeeds (the call returns no error), the output has
`len(Layers) == len(RefTrees)` and the layer and the tree at each output position are a
layer and the tree at the same position of the input: the accumulator layer with the
accumulator tree, each passed-through layer with its own tree. -/
theorem AnalyzeCNB_alignment {σ : Type} (pack : Pack) (Stack : StackFn σ)
    (m : Memory σ) (imageName : String)
    (_hlen : m.analysis.Layers.length = m.analysis.RefTrees.length)
    (hok : (AnalyzeCNB pack Stack m imageName).err = none) :
    (AnalyzeCNB pack Stack m imageName).memory.analysis.Layers.length
        = (AnalyzeCNB pack Stack m imageName).memory.analysis.RefTrees.length
      ∧ (∀ p ∈ (AnalyzeCNB pack Stack m imageName).memory.analysis.Layers.zip
              (AnalyzeCNB pack Stack m imageName).memory.analysis.RefTrees,
          p ∈ m.analysis.Layers.zip m.analysis.RefTrees)
      ∧ (∀ (i : Nat) (l t : Addr),
          (AnalyzeCNB pack Stack m imageName).memory.analysis.Layers[i]? = some l →
          (AnalyzeCNB pack Stack m imageName).memory.analysis.RefTrees[i]? = some t →
          ∃ j : Nat, m.analysis.Layers[j]? = some l ∧ m.analysis.RefTrees[j]? = some t) := by
  obtain ⟨ps, p1, p2, p3⟩ := AnalyzeCNB_output_pairs pack Stack m imageName hok
  have hzip : (AnalyzeCNB pack Stack m imageName).memory.analysis.Layers.zip
      (AnalyzeCNB pack Stack m imageName).memory.analysis.RefTrees = ps := by
    rw [p1, p2, zip_map_fst_map_snd]
  refine ⟨by rw [p1, p2]; simp, by rw [hzip]; exact p3, ?_⟩
  intro i l t hl ht
  have hmem : (l, t) ∈ ps := by
    rw [← hzip]
    have : ((AnalyzeCNB pack Stack m imageName).memory.analysis.Layers.zip
        (AnalyzeCNB pack Stack m imageName).memory.analysis.RefTrees)[i]? = some (l, t) := by
      rw [List.getElem?_zip_eq_some]
      exact ⟨hl, ht⟩
    exact List.getElem?_mem this
  obtain ⟨j, hj⟩ := List.getElem?_of_mem (p3 (l, t) hmem)
  rw [List.getElem?_zip_eq_some] at hj
  exact ⟨j, hj.1, hj.2⟩

/-- Witness of C14: three layers with the top digest at position 1. -/
theorem AnalyzeCNB_alignment_witness :
    (AnalyzeCNB packTopBB stackOk memThree "img").memory.analysis.Layers.length
        = (AnalyzeCNB packTopBB stackOk memThree "img").memory.analysis.RefTrees.length
      ∧ ∀ p ∈ (AnalyzeCNB packTopBB stackOk memThree "img").memory.analysis.Layers.zip
              (AnalyzeCNB packTopBB stackOk memThree "img").memory.analysis.RefTrees,
          p ∈ memThree.analysis.Layers.zip memThree.analysis.RefTrees :=
  have h := AnalyzeCNB_alignment packTopBB stackOk memThree "img" (by decide) (by decide)
  ⟨h.1, h.2.1⟩

/-- The error `AnalyzeCNB` returns on a non-empty equal-length input once the `pack` calls
have succeeded: none when the loop did not fail. -/
theorem AnalyzeCNB_err_of_loop {σ : Type} (pack : Pack) (Stack : StackFn σ) (m : Memory σ)
    (imageName top : String) (c tc : Addr) (rest trest : List Addr)
    (hN : pack.NewClient = none) (hI : pack.InspectImage imageName = Except.ok top)
    (hL : m.analysis.Layers = c :: rest) (hT : m.analysis.RefTrees = tc :: trest)
    (hlen : rest.length = trest.length)
    (hloop : (loop Stack top (loopAccum m c tc) (rest.zip trest)).2 = false) :
    (AnalyzeCNB pack Stack m imageName).err = none := by
  have hlen' : m.analysis.Layers.length = m.analysis.RefTrees.length := by
    rw [hL, hT]; simp [hlen]
  have hzip : loop Stack top (loopInit m) (m.analysis.Layers.zip m.analysis.RefTrees)
      = loop Stack top (loopAccum m c tc) (rest.zip trest) := by
    rw [hL, hT, List.zip_cons_cons, loop_init_cons]
  simp [AnalyzeCNB, hN, hI, hlen', hzip, hloop]

/-- C15. Base digest absent in `AnalyzeCNB`: for every equal-length input with at least one
layer in which no layer carries the top digest of the base image and every `Stack` call
succeeds, the call returns no error; every tree after the first has been stacked, in order,
onto the first tree; both output sequences are empty, so none of the layers after the first
is an entry of the output; no layer other than the first is changed; and, the first layer
not being repeated in `Layers`, its `Size` is the `uint64` sum of all input sizes, which is
the exact sum whenever that sum fits in a `uint64`. -/
theorem AnalyzeCNB_digest_absent {σ : Type} (pack : Pack) (Stack : StackFn σ)
    (m : Memory σ) (imageName top : String) (c tc : Addr) (rest trest : List Addr)
    (hN : pack.NewClient = none) (hI : pack.InspectImage imageName = Except.ok top)
    (hL : m.analysis.Layers = c :: rest) (hT : m.analysis.RefTrees = tc :: trest)
    (hlen : rest.length = trest.length)
    (hd : ∀ a ∈ m.analysis.Layers, (m.layers a).Digest ≠ top)
    (hstack : (stackAll Stack m.trees tc trest).2 = false) :
    (AnalyzeCNB pack Stack m imageName).err = none
      ∧ (AnalyzeCNB pack Stack m imageName).memory.trees = (stackAll Stack m.trees tc trest).1
      ∧ (AnalyzeCNB pack Stack m imageName).memory.analysis.Layers = []
      ∧ (AnalyzeCNB pack Stack m imageName).memory.analysis.RefTrees = []
      ∧ (∀ a ∈ rest, a ∉ (AnalyzeCNB pack Stack m imageName).memory.analysis.Layers)
      ∧ (∀ a, a ≠ c → (AnalyzeCNB pack Stack m imageName).memory.layers a = m.layers a)
      ∧ (c ∉ rest → (m.layers c).Size < 2 ^ 64 →
          ((AnalyzeCNB pack Stack m imageName).memory.layers c).Size
            = wrapU64 ((m.analysis.Layers.map (fun a => (m.layers a).Size)).sum))
      ∧ (c ∉ rest → (m.analysis.Layers.map (fun a => (m.layers a).Size)).sum < 2 ^ 64 →
          ((AnalyzeCNB pack Stack m imageName).memory.layers c).Size
            = (m.analysis.Layers.map (fun a => (m.layers a).Size)).sum) := by
  have hdrest : ∀ a ∈ rest, (m.layers a).Digest ≠ top := by
    intro a ha
    apply hd
    rw [hL]
    exact List.mem_cons_of_mem _ ha
  have hzs : (rest.zip trest).map Prod.snd = trest :=
    List.map_snd_zip _ _ (le_of_eq hlen.symm)
  have hzf : (rest.zip trest).map Prod.fst = rest :=
    List.map_fst_zip _ _ (le_of_eq hlen)
  have hdz : ∀ p ∈ rest.zip trest, ((loopAccum m c tc).layers p.1).Digest ≠ top := by
    intro p hp
    apply hdrest
    rw [← hzf]
    exact List.mem_map_of_mem _ hp
  obtain ⟨t1, t2⟩ :=
    loop_stack_trees Stack top c tc (rest.zip trest) (loopAccum m c tc) rfl rfl hdz
  rw [hzs] at t1 t2
  have hloop : (loop Stack top (loopAccum m c tc) (rest.zip trest)).2 = false := by
    rw [t1]; exact hstack
  have hok := AnalyzeCNB_err_of_loop pack Stack m imageName top c tc rest trest hN hI hL hT
    hlen hloop
  obtain ⟨_, _, htrees, _, _, _⟩ :=
    AnalyzeCNB_success pack Stack m imageName top c tc rest trest hN hI hL hT hlen hok
  obtain ⟨g1, g2, g3, g4⟩ :=
    AnalyzeCNB_no_match_after_first pack Stack m imageName top c tc rest trest hN hI hL hT
      hlen hdrest hok
  have hsum : (m.analysis.Layers.map (fun a => (m.layers a).Size)).sum
      = (m.layers c).Size + (rest.map (fun a => (m.layers a).Size)).sum := by
    rw [hL]; simp
  refine ⟨hok, ?_, g1, g2, ?_, g3, ?_, ?_⟩
  · rw [htrees, t2]
    rfl
  · intro a _
    rw [g1]
    simp
  · intro hnot hsz
    rw [g4 hnot hsz, hsum]
  · intro hnot htot
    have hsz : (m.layers c).Size < 2 ^ 64 := by omega
    rw [g4 hnot hsz, ← hsum]
    exact Nat.mod_eq_of_lt htot

/-- Witness of C15: four layers of sizes 10, 20, 30, 40, none of which carries the top digest;
no error, empty output, and the first layer ends with `Size` 100. -/
theorem AnalyzeCNB_digest_absent_witness :
    (AnalyzeCNB packTopZZ stackOk memFour "img").err = none
      ∧ (AnalyzeCNB packTopZZ stackOk memFour "img").memory.analysis.Layers = []
      ∧ (AnalyzeCNB packTopZZ stackOk memFour "img").memory.analysis.RefTrees = []
      ∧ ((AnalyzeCNB packTopZZ stackOk memFour "img").memory.layers 0).Size
          = (memFour.analysis.Layers.map (fun a => (memFour.layers a).Size)).sum
      ∧ (memFour.analysis.Layers.map (fun a => (memFour.layers a).Size)).sum = 100 :=
  have h := AnalyzeCNB_digest_absent packTopZZ stackOk memFour "img" "sha256:zz" 0 0
    [1, 2, 3] [1, 2, 3] rfl rfl rfl rfl rfl (by decide) (by decide)
  ⟨h.1, h.2.2.1, h.2.2.2.1, h.2.2.2.2.2.2.2 (by decide) (by decide), by decide⟩

/-! ## Theorems: the layer view -/

theorem invokeAll_append {ω : Type} (selection : LayerSelection)
    (xs ys : List (LayerChangeListener ω)) (w : ω) :
    invokeAll selection (xs ++ ys) w = invokeAll selection ys (invokeAll selection xs w) := by
  simp [invokeAll, List.foldl_append]

/-- Listeners that return nil are invoked one after the other and the loop goes on with the
listeners after them. -/
theorem notifyLoop_append {ω : Type} (selection : LayerSelection) :
    ∀ (pre rest : List (LayerChangeListener ω)) (w : ω), allSucceed selection pre w →
      notifyLoop selection (pre ++ rest) w
        = notifyLoop selection rest (invokeAll selection pre w) := by
  intro pre
  induction pre with
  | nil => intro rest w _; rfl
  | cons l pre ih =>
    intro rest w hall
    obtain ⟨h1, h2⟩ := hall
    have hstep : notifyLoop selection (l :: (pre ++ rest)) w
        = notifyLoop selection (pre ++ rest) (l selection w).1 := by
      simp [notifyLoop, h1]
    rw [List.cons_append, hstep, ih rest _ h2]
    rfl

/-- The view model after `SetCursor`, however the call ends. -/
theorem SetCursor_vm {ω : Type} (gui : Gui ω) (v : LayerView ω) (w : ω) (layer : Int) :
    (SetCursor gui v w layer).view.vm = SetLayerIndex v.vm layer := by
  unfold SetCursor
  simp only
  split <;> rfl

theorem CurrentLayer_isSome {ω : Type} (v : LayerView ω) :
    (CurrentLayer v).isSome = true ↔ indexInRange v.vm := by
  unfold CurrentLayer indexInRange
  by_cases h0 : 0 ≤ v.vm.LayerIndex
  · rw [if_pos h0]
    rw [← Option.ne_none_iff_isSome, ne_eq, List.getElem?_eq_none_iff]
    constructor
    · intro h; exact ⟨h0, by omega⟩
    · intro h; omega
  · rw [if_neg h0]
    simp [h0]

/-- C11, as stated, fails: on a state with three layers and `LayerIndex` 1, the index 5 (and
equally the index -1) is not rejected: `SetLayerIndex` stores it, and `SetCursor` stores it
and then ends in the runtime panic of `Layers[LayerIndex]`, not in a returned error. -/
theorem SetLayerIndex_range_check_counterexample :
    ¬ ((5 : Int) < ((viewThree 1 []).vm.Layers.length : Int))
      ∧ (viewThree 1 []).vm.LayerIndex = 1
      ∧ (SetLayerIndex (viewThree 1 []).vm 5).LayerIndex = 5
      ∧ (SetLayerIndex (viewThree 1 []).vm (-1)).LayerIndex = -1
      ∧ (SetCursor (guiOk 5) (viewThree 1 []) [] 5).view.vm.LayerIndex = 5
      ∧ (SetCursor (guiOk 5) (viewThree 1 []) [] 5).outcome = Outcome.panicked := by
  decide

/-- C11, amended. `SetLayerIndex` has no range check and no failure result: for every state
and every index `i`, inside `[0, len(Layers))` or not, `LayerIndex` becomes `i` and no other
field changes.  Through `SetCursor`, an index in range becomes the `LayerIndex` and the call
returns (with what the listeners return); an index out of range becomes the `LayerIndex` all
the same and the call then panics on `Layers[LayerIndex]` before any listener runs. -/
theorem SetLayerIndex_sets_index {ω : Type} (gui : Gui ω) (v : LayerView ω) (w : ω)
    (i : Int) :
    SetLayerIndex v.vm i = { v.vm with LayerIndex := i }
      ∧ (SetCursor gui v w i).view.vm = { v.vm with LayerIndex := i }
      ∧ ((0 ≤ i ∧ i < (v.vm.Layers.length : Int)) →
          (SetCursor gui v w i).outcome ≠ Outcome.panicked)
      ∧ (¬ (0 ≤ i ∧ i < (v.vm.Layers.length : Int)) →
          (SetCursor gui v w i).outcome = Outcome.panicked
            ∧ (SetCursor gui v w i).world = w) := by
  refine ⟨rfl, SetCursor_vm gui v w i, ?_, ?_⟩
  · intro hin
    have hr : indexInRange ({ v with vm := SetLayerIndex v.vm i } : LayerView ω).vm := hin
    rw [← CurrentLayer_isSome] at hr
    obtain ⟨layer, hlayer⟩ := Option.isSome_iff_exists.mp hr
    unfold SetCursor
    simp only [notifyLayerChangeListeners, hlayer]
    split <;> simp_all
  · intro hout
    have hr : ¬ indexInRange ({ v with vm := SetLayerIndex v.vm i } : LayerView ω).vm := hout
    rw [← CurrentLayer_isSome] at hr
    have hnone : CurrentLayer ({ v with vm := SetLayerIndex v.vm i } : LayerView ω) = none := by
      simpa using hr
    unfold SetCursor
    simp [notifyLayerChangeListeners, hnone]

/-- Witness of the amended C11: three layers; the index 2 is stored and the call returns, the
index 5 is stored and the call panics. -/
theorem SetLayerIndex_sets_index_witness :
    (SetCursor (guiOk 5) (viewThree 1 []) [] 2).view.vm.LayerIndex = 2
      ∧ (SetCursor (guiOk 5) (viewThree 1 []) [] 2).outcome ≠ Outcome.panicked
      ∧ (SetCursor (guiOk 5) (viewThree 1 []) [] 5).view.vm.LayerIndex = 5
      ∧ (SetCursor (guiOk 5) (viewThree 1 []) [] 5).outcome = Outcome.panicked :=
  ⟨by rw [(SetLayerIndex_sets_index (guiOk 5) (viewThree 1 []) [] 2).2.1],
    (SetLayerIndex_sets_index (guiOk 5) (viewThree 1 []) [] 2).2.2.1 (by decide),
    by rw [(SetLayerIndex_sets_index (guiOk 5) (viewThree 1 []) [] 5).2.1],
    ((SetLayerIndex_sets_index (guiOk 5) (viewThree 1 []) [] 5).2.2.2 (by decide)).1⟩

/-- With the selection in range, `notifyLayerChangeListeners` runs its loop with the selection
built from the current layer and the current result of `GetCompareIndexes`. -/
theorem notifyLayerChangeListeners_eq {ω : Type} (v : LayerView ω) (w : ω) (layer : Addr)
    (hcur : CurrentLayer v = some layer) :
    notifyLayerChangeListeners v w
      = ((notifyLoop (selectionOf v.vm layer) v.listeners w).1,
          Outcome.returned (notifyLoop (selectionOf v.vm layer) v.listeners w).2) := by
  simp [notifyLayerChangeListeners, hcur, selectionOf]

/-- C12. `notifyLayerChangeListeners`, for a selection in range: `AddLayerChangeListener`
appends to the list of listeners; the listeners are invoked in the order of that list, each
with the same selection, built from the current layer and the current result of
`GetCompareIndexes`.  If the listener `l` at position `j` is the first to return an error,
the outside state is the one left by invoking the listeners 0 .. j in order and no other, and
that error is returned; if none returns an error, all are invoked in order and nil is
returned. -/
theorem notifyLayerChangeListeners_order {ω : Type} (v : LayerView ω) (w : ω) (layer : Addr)
    (hcur : CurrentLayer v = some layer) :
    (∀ new : List (LayerChangeListener ω),
        (AddLayerChangeListener v new).listeners = v.listeners ++ new
          ∧ (AddLayerChangeListener v new).vm = v.vm)
      ∧ (∀ (pre : List (LayerChangeListener ω)) (l : LayerChangeListener ω)
          (post : List (LayerChangeListener ω)) (err : String),
          v.listeners = pre ++ l :: post →
          allSucceed (selectionOf v.vm layer) pre w →
          (l (selectionOf v.vm layer) (invokeAll (selectionOf v.vm layer) pre w)).2
            = some err →
          notifyLayerChangeListeners v w
            = (invokeAll (selectionOf v.vm layer) (pre ++ [l]) w,
                Outcome.returned (some err)))
      ∧ (allSucceed (selectionOf v.vm layer) v.listeners w →
          notifyLayerChangeListeners v w
            = (invokeAll (selectionOf v.vm layer) v.listeners w, Outcome.returned none)) := by
  refine ⟨fun new => ⟨rfl, rfl⟩, ?_, ?_⟩
  · intro pre l post err hls hall herr
    have hstep : notifyLoop (selectionOf v.vm layer) (l :: post)
          (invokeAll (selectionOf v.vm layer) pre w)
        = ((l (selectionOf v.vm layer) (invokeAll (selectionOf v.vm layer) pre w)).1,
            some err) := by
      simp [notifyLoop, herr]
    rw [notifyLayerChangeListeners_eq v w layer hcur, hls,
      notifyLoop_append _ pre (l :: post) w hall, invokeAll_append, hstep]
    rfl
  · intro hall
    have h := notifyLoop_append (selectionOf v.vm layer) v.listeners [] w hall
    rw [List.append_nil] at h
    rw [notifyLayerChangeListeners_eq v w layer hcur, h]
    rfl

/-- Witness of C12: three listeners added in the order 0, 1, 2, of which the second returns an
error, on three layers with the selection at 1: listeners 0 and 1 are invoked, in that order,
with the selection `(layer 1, 0, 0, 1, 1)`, listener 2 is not, and the error is returned. -/
theorem notifyLayerChangeListeners_order_witness :
    (AddLayerChangeListener (viewThree 1 [listenerOk 0]) [listenerFail 1, listenerOk 2]).vm
        = (viewThree 1 [listenerOk 0]).vm
      ∧ notifyLayerChangeListeners
          (AddLayerChangeListener (viewThree 1 [listenerOk 0]) [listenerFail 1, listenerOk 2])
          []
        = ([(0, ⟨1, 0, 0, 1, 1⟩), (1, ⟨1, 0, 0, 1, 1⟩)],
            Outcome.returned (some "listener failed")) :=
  ⟨((notifyLayerChangeListeners_order (viewThree 1 [listenerOk 0]) [] 1 rfl).1
      [listenerFail 1, listenerOk 2]).2,
    (notifyLayerChangeListeners_order
      (AddLayerChangeListener (viewThree 1 [listenerOk 0]) [listenerFail 1, listenerOk 2])
      [] 1 rfl).2.1 [listenerOk 0] (listenerFail 1) [listenerOk 2] "listener failed" rfl
      ⟨rfl, trivial⟩ rfl⟩

/-! ## Theorems: navigation and the range of the selection -/

theorem wrapInt_bounds (x : Int) : minInt ≤ wrapInt x ∧ wrapInt x ≤ maxInt := by
  unfold wrapInt minInt maxInt
  omega

theorem pageUp_arith (idx ps len : Int) (h0 : 0 ≤ idx) (h1 : idx < len) (hmax : idx ≤ maxInt)
    (hlo : minInt ≤ ps) (hhi : ps ≤ maxInt)
    (hpos : (if wrapInt (idx - ps) < 0 then wrapInt (ps + wrapInt (idx - ps)) else ps) > 0) :
    0 ≤ wrapInt (idx - (if wrapInt (idx - ps) < 0 then wrapInt (ps + wrapInt (idx - ps)) else ps))
      ∧ wrapInt (idx - (if wrapInt (idx - ps) < 0 then wrapInt (ps + wrapInt (idx - ps)) else ps))
          < len := by
  by_cases hneg : wrapInt (idx - ps) < 0
  · rw [if_pos hneg] at hpos ⊢
    unfold wrapInt minInt maxInt at *
    omega
  · rw [if_neg hneg] at hpos ⊢
    unfold wrapInt minInt maxInt at *
    omega

/-- The method `CursorUp` keeps the selection in range, whatever the GUI cursor move
returns. -/
theorem CursorUp_indexInRange {ω : Type} (gui : Gui ω) (v : LayerView ω) (w : ω)
    (hin : indexInRange v.vm) (hmax : v.vm.LayerIndex ≤ maxInt) :
    indexInRange (CursorUp gui v w).view.vm := by
  unfold CursorUp
  split
  · rename_i hpos
    split
    · rw [SetCursor_vm]
      obtain ⟨h0, h1⟩ := hin
      show 0 ≤ wrapInt (v.vm.LayerIndex - 1)
        ∧ wrapInt (v.vm.LayerIndex - 1) < (v.vm.Layers.length : Int)
      rw [wrapInt_of_range _ (by unfold minInt; omega) (by omega)]
      omega
    · exact hin
  · exact hin

/-- The method `PageUp` keeps the selection in range, whatever the height of the pane and
whatever the GUI cursor move returns. -/
theorem PageUp_indexInRange {ω : Type} (gui : Gui ω) (v : LayerView ω) (w : ω)
    (hin : indexInRange v.vm) (hmax : v.vm.LayerIndex ≤ maxInt) :
    indexInRange (PageUp gui v w).view.vm := by
  unfold PageUp
  simp only
  have hps : minInt ≤ pageStep gui w ∧ pageStep gui w ≤ maxInt :=
    wrapInt_bounds (wrapInt (height gui w) + 1)
  by_cases hpos : (if wrapInt (v.vm.LayerIndex - pageStep gui w) < 0 then
      wrapInt (pageStep gui w + wrapInt (v.vm.LayerIndex - pageStep gui w))
    else pageStep gui w) > 0
  · rw [if_pos hpos]
    split
    · rw [SetCursor_vm]
      exact pageUp_arith v.vm.LayerIndex (pageStep gui w) (v.vm.Layers.length : Int)
        hin.1 hin.2 hmax hps.1 hps.2 hpos
    · exact hin
  · rw [if_neg hpos]
    exact hin

/-- The methods `CursorDown` and `PageDown` leave the view as it was when the GUI cursor move
reports an error. -/
theorem CursorDown_of_gui_error {ω : Type} (gui : Gui ω) (v : LayerView ω) (w : ω)
    (e : String) (hgui : (gui.CursorDown w).2 = some e) :
    (CursorDown gui v w).view = v ∧ (CursorDown gui v w).outcome = Outcome.returned none := by
  unfold CursorDown
  split
  · simp [hgui]
  · exact ⟨rfl, rfl⟩

theorem PageDown_of_gui_error {ω : Type} (gui : Gui ω) (v : LayerView ω) (w : ω)
    (hgui : ∀ step, (gui.CursorStep w step).2 ≠ none) :
    (PageDown gui v w).view = v ∧ (PageDown gui v w).outcome = Outcome.returned none := by
  unfold PageDown
  simp only
  generalize (if wrapInt (v.vm.LayerIndex + pageStep gui w) > (v.vm.Layers.length : Int) then
      wrapInt (pageStep gui w - wrapInt (wrapInt (v.vm.LayerIndex + pageStep gui w)
        - wrapInt ((v.vm.Layers.length : Int) - 1)))
    else pageStep gui w) = st
  by_cases hpos : st > 0
  · rw [if_pos hpos]
    cases hg : (gui.CursorStep w st).2 with
    | none => exact absurd hg (hgui st)
    | some e => exact ⟨rfl, rfl⟩
  · rw [if_neg hpos]
    exact ⟨rfl, rfl⟩

/-- The method `CursorDown` keeps the selection in range when it does not start from the last
layer. -/
theorem CursorDown_indexInRange {ω : Type} (gui : Gui ω) (v : LayerView ω) (w : ω)
    (hin : indexInRange v.vm) (hmax : (v.vm.Layers.length : Int) ≤ maxInt)
    (hlast : v.vm.LayerIndex + 1 < (v.vm.Layers.length : Int)) :
    indexInRange (CursorDown gui v w).view.vm := by
  unfold CursorDown
  split
  · split
    · rw [SetCursor_vm]
      obtain ⟨h0, h1⟩ := hin
      show 0 ≤ wrapInt (v.vm.LayerIndex + 1)
        ∧ wrapInt (v.vm.LayerIndex + 1) < (v.vm.Layers.length : Int)
      rw [wrapInt_of_range _ (by unfold minInt; omega) (by omega)]
      omega
    · exact hin
  · exact hin

/-- C16, the code at the failing input. On three layers with the selection on the last one
(`LayerIndex` 2, in range), `CursorDown` with a GUI cursor move that succeeds sets
`LayerIndex` to 3, which is `len(Layers)`: the selection is out of range and `CurrentLayer`
panics.  Likewise `PageDown` from `LayerIndex` 0 with a view of height 3 and a GUI cursor
move that succeeds sets `LayerIndex` to 3. -/
theorem navigation_range_failing_input :
    indexInRange (viewThree 2 []).vm
      ∧ (CursorDown (guiOk 5) (viewThree 2 []) []).view.vm.LayerIndex = 3
      ∧ ((CursorDown (guiOk 5) (viewThree 2 []) []).view.vm.Layers.length : Int) = 3
      ∧ ¬ indexInRange (CursorDown (guiOk 5) (viewThree 2 []) []).view.vm
      ∧ CurrentLayer (CursorDown (guiOk 5) (viewThree 2 []) []).view = none
      ∧ (CursorDown (guiOk 5) (viewThree 2 []) []).outcome = Outcome.panicked
      ∧ indexInRange (viewThree 0 []).vm
      ∧ (PageDown (guiOk 3) (viewThree 0 []) []).view.vm.LayerIndex = 3
      ∧ ¬ indexInRange (PageDown (guiOk 3) (viewThree 0 []) []).view.vm
      ∧ (PageDown (guiOk 3) (viewThree 0 []) []).outcome = Outcome.panicked := by
  decide

/-! ## Theorems: a failing `Stack` call in `AnalyzeCNB` -/

/-- While no layer carries the top digest and no `Stack` call fails, the `Size` of the
accumulator is, modulo `2 ^ 64`, its `Size` at the start plus the sizes added onto it. -/
theorem loop_stack_size_mod {σ : Type} (Stack : StackFn σ) (top : String) (c tc : Addr) :
    ∀ (xs : List (Addr × Addr)) (s : LoopState σ), s.cur = some (c, tc) → s.isStack = true →
      (∀ p ∈ xs, (s.layers p.1).Digest ≠ top) → (loop Stack top s xs).2 = false →
      c ∉ xs.map Prod.fst →
      wrapU64 ((loop Stack top s xs).1.layers c).Size
        = wrapU64 ((s.layers c).Size + (xs.map (fun p => (s.layers p.1).Size)).sum) := by
  intro xs
  induction xs with
  | nil => intro s _ _ _ _ _; simp [loop]
  | cons p rest ih =>
    intro s hc hs hnd hok hnot
    obtain ⟨l, t⟩ := p
    have hl : (s.layers l).Digest ≠ top := hnd (l, t) (List.mem_cons_self _ _)
    have hrest : c ∉ rest.map Prod.fst := by
      intro h
      apply hnot
      simp only [List.map_cons, List.mem_cons]
      exact Or.inr h
    have hb := loopBody_stack Stack top s l t c tc hc hs
    by_cases hfail : (Stack s.trees tc t).2 = true
    · rw [if_pos hfail] at hb
      have hloop : loop Stack top s ((l, t) :: rest) = loopBody Stack top s l t := by
        simp [loop, hb]
      rw [hloop, hb] at hok
      simp at hok
    · rw [if_neg hfail, if_neg hl] at hb
      have hloop : loop Stack top s ((l, t) :: rest)
          = loop Stack top (loopBody Stack top s l t).1 rest := by
        simp [loop, hb]
      rw [hloop] at hok ⊢
      have hrestd : ∀ p ∈ rest, (((loopBody Stack top s l t).1).layers p.1).Digest ≠ top := by
        intro p hp
        rw [hb]
        show (addSize s.layers c l p.1).Digest ≠ top
        rw [addSize_Digest]
        exact hnd p (List.mem_cons_of_mem _ hp)
      rw [ih (loopBody Stack top s l t).1 (by rw [hb]; exact hc) (by rw [hb]; exact hs)
        hrestd hok hrest, hb]
      simp only [List.map_cons, List.sum_cons]
      rw [addSize_self]
      simp only
      have hmap : rest.map (fun p => (addSize s.layers c l p.1).Size)
          = rest.map (fun p => (s.layers p.1).Size) := by
        apply List.map_congr_left
        intro p hp
        have hpc : p.1 ≠ c := by
          intro h
          apply hrest
          rw [← h]
          exact List.mem_map_of_mem _ hp
        rw [addSize_other _ _ _ _ hpc]
      rw [hmap, wrapU64_add_wrapU64]

/-- A loop that fails in stack mode fails at a `Stack` call: the pairs before it carry no top
digest and their `Stack` calls succeed, and the call for the pair it stops at reports an
error. -/
theorem loop_fail_decompose {σ : Type} (Stack : StackFn σ) (top : String) (c tc : Addr) :
    ∀ (xs : List (Addr × Addr)) (s : LoopState σ), s.cur = some (c, tc) → s.isStack = true →
      (loop Stack top s xs).2 = true →
      ∃ (zp : List (Addr × Addr)) (l t : Addr) (zq : List (Addr × Addr)),
        xs = zp ++ (l, t) :: zq
          ∧ (∀ p ∈ zp, (s.layers p.1).Digest ≠ top)
          ∧ (stackAll Stack s.trees tc (zp.map Prod.snd)).2 = false
          ∧ (Stack (stackAll Stack s.trees tc (zp.map Prod.snd)).1 tc t).2 = true := by
  intro xs
  induction xs with
  | nil => intro s _ _ hf; simp [loop] at hf
  | cons p rest ih =>
    intro s hc hs hf
    obtain ⟨l, t⟩ := p
    have hb := loopBody_stack Stack top s l t c tc hc hs
    by_cases hfail : (Stack s.trees tc t).2 = true
    · exact ⟨[], l, t, rest, rfl, by simp, by simp [stackAll], by simpa [stackAll] using hfail⟩
    · rw [if_neg hfail] at hb
      by_cases hd : (s.layers l).Digest = top
      · rw [if_pos hd] at hb
        have hloop : loop Stack top s ((l, t) :: rest)
            = loop Stack top (loopBody Stack top s l t).1 rest := by
          simp [loop, hb]
        rw [hloop] at hf
        have hpass := (loop_pass Stack top c tc rest (loopBody Stack top s l t).1
          (by rw [hb]; exact hc) (by rw [hb])).1
        rw [hpass] at hf
        exact absurd hf (by decide)
      · rw [if_neg hd] at hb
        have hloop : loop Stack top s ((l, t) :: rest)
            = loop Stack top (loopBody Stack top s l t).1 rest := by
          simp [loop, hb]
        rw [hloop] at hf
        obtain ⟨zp, l', t', zq, h1, h2, h3, h4⟩ := ih (loopBody Stack top s l t).1
          (by rw [hb]; exact hc) (by rw [hb]; exact hs) hf
        rw [hb] at h2 h3 h4
        refine ⟨(l, t) :: zp, l', t', zq, by rw [h1]; rfl, ?_, ?_, ?_⟩
        · intro p hp
          rcases List.mem_cons.mp hp with h | h
          · rw [h]; exact hd
          · have := h2 p h
            rwa [show (addSize s.layers c l p.1).Digest = (s.layers p.1).Digest from
              addSize_Digest _ _ _ _] at this
        · simpa [stackAll, hfail] using h3
        · simpa [stackAll, hfail] using h4

/-- What `AnalyzeCNB` leaves behind when its loop fails. -/
theorem AnalyzeCNB_of_loop_fail {σ : Type} (pack : Pack) (Stack : StackFn σ) (m : Memory σ)
    (imageName top : String) (c tc : Addr) (rest trest : List Addr)
    (hN : pack.NewClient = none) (hI : pack.InspectImage imageName = Except.ok top)
    (hL : m.analysis.Layers = c :: rest) (hT : m.analysis.RefTrees = tc :: trest)
    (hlen : rest.length = trest.length)
    (hfail : (loop Stack top (loopAccum m c tc) (rest.zip trest)).2 = true) :
    (AnalyzeCNB pack Stack m imageName).err = some CNBError.stackingTrees
      ∧ (AnalyzeCNB pack Stack m imageName).result = none
      ∧ (AnalyzeCNB pack Stack m imageName).memory.analysis = m.analysis
      ∧ (AnalyzeCNB pack Stack m imageName).memory.layers
          = (loop Stack top (loopAccum m c tc) (rest.zip trest)).1.layers
      ∧ (AnalyzeCNB pack Stack m imageName).memory.trees
          = (loop Stack top (loopAccum m c tc) (rest.zip trest)).1.trees := by
  have hlen' : m.analysis.Layers.length = m.analysis.RefTrees.length := by
    rw [hL, hT]; simp [hlen]
  have hzip : loop Stack top (loopInit m) (m.analysis.Layers.zip m.analysis.RefTrees)
      = loop Stack top (loopAccum m c tc) (rest.zip trest) := by
    rw [hL, hT, List.zip_cons_cons, loop_init_cons]
  simp [AnalyzeCNB, hN, hI, hlen', hzip, hfail]

/-- When `AnalyzeCNB` returns the stacking error, its input is not empty, has equal lengths,
and its loop failed. -/
theorem AnalyzeCNB_loop_fail_of_err {σ : Type} (pack : Pack) (Stack : StackFn σ)
    (m : Memory σ) (imageName top : String)
    (hI : pack.InspectImage imageName = Except.ok top)
    (herr : (AnalyzeCNB pack Stack m imageName).err = some CNBError.stackingTrees) :
    ∃ (c tc : Addr) (rest trest : List Addr),
      m.analysis.Layers = c :: rest ∧ m.analysis.RefTrees = tc :: trest
        ∧ rest.length = trest.length
        ∧ (loop Stack top (loopAccum m c tc) (rest.zip trest)).2 = true := by
  cases hN : pack.NewClient with
  | some e => simp [AnalyzeCNB, hN] at herr
  | none =>
    by_cases hlen : m.analysis.Layers.length = m.analysis.RefTrees.length
    swap
    · simp [AnalyzeCNB, hN, hI, hlen] at herr
    by_cases hfail : (loop Stack top (loopInit m)
        (m.analysis.Layers.zip m.analysis.RefTrees)).2 = true
    swap
    · simp [AnalyzeCNB, hN, hI, hlen, hfail] at herr
    cases hL : m.analysis.Layers with
    | nil =>
      rw [hL] at hfail
      simp [loop] at hfail
    | cons c rest =>
      cases hT : m.analysis.RefTrees with
      | nil =>
        rw [hL, hT] at hlen
        simp at hlen
      | cons tc trest =>
        have hlen' : rest.length = trest.length := by
          rw [hL, hT] at hlen
          simpa using hlen
        rw [hL, hT, List.zip_cons_cons, loop_init_cons] at hfail
        exact ⟨c, tc, rest, trest, rfl, rfl, hlen', hfail⟩

/-- C6, amended. With the `pack` calls succeeding: whenever a `Stack` call of `AnalyzeCNB`
reports an error, say the call for the layer `l`, the call returns the error
`error to stacking trees` and a nil result; the fields `Layers` and `RefTrees` of the analysis
are not reassigned; the trees are the ones the failing `Stack` call left; no layer other than
the first is changed and the first layer keeps every field but `Size`.  The failure is not
atomic: when the first layer is not repeated among the layers up to `l`, its `Size` has grown
(as a `uint64`) by the sizes of the layers after it up to and including `l`.  Conversely the
error `error to stacking trees` is returned only when a `Stack` call reported an error. -/
theorem AnalyzeCNB_stack_failure {σ : Type} (pack : Pack) (Stack : StackFn σ)
    (m : Memory σ) (imageName top : String)
    (hN : pack.NewClient = none) (hI : pack.InspectImage imageName = Except.ok top) :
    (∀ (c tc : Addr) (pre : List Addr) (l : Addr) (post tpre : List Addr) (t : Addr)
        (tpost : List Addr),
        stackFailsAt Stack top m c tc pre l post tpre t tpost →
        (AnalyzeCNB pack Stack m imageName).err = some CNBError.stackingTrees
          ∧ (AnalyzeCNB pack Stack m imageName).result = none
          ∧ (AnalyzeCNB pack Stack m imageName).memory.analysis = m.analysis
          ∧ (AnalyzeCNB pack Stack m imageName).memory.trees
              = (Stack (stackAll Stack m.trees tc tpre).1 tc t).1
          ∧ (∀ a, a ≠ c → (AnalyzeCNB pack Stack m imageName).memory.layers a = m.layers a)
          ∧ (AnalyzeCNB pack Stack m imageName).memory.layers c
              = { m.layers c with
                  Size := ((AnalyzeCNB pack Stack m imageName).memory.layers c).Size }
          ∧ (c ∉ pre → c ≠ l →
              ((AnalyzeCNB pack Stack m imageName).memory.layers c).Size
                = wrapU64 ((m.layers c).Size
                    + ((pre ++ [l]).map (fun a => (m.layers a).Size)).sum)))
      ∧ ((AnalyzeCNB pack Stack m imageName).err = some CNBError.stackingTrees →
          ∃ (c tc : Addr) (pre : List Addr) (l : Addr) (post tpre : List Addr) (t : Addr)
            (tpost : List Addr), stackFailsAt Stack top m c tc pre l post tpre t tpost) := by
  constructor
  · intro c tc pre l post tpre t tpost hsf
    obtain ⟨hL, hT, hpre, hpost, hdpre, hprev, hfail⟩ := hsf
    have hlen : (pre ++ l :: post).length = (tpre ++ t :: tpost).length := by
      simp [hpre, hpost]
    have hzip : (pre ++ l :: post).zip (tpre ++ t :: tpost)
        = pre.zip tpre ++ (l, t) :: post.zip tpost := by
      rw [List.zip_append hpre, List.zip_cons_cons]
    have hzp : (pre.zip tpre).map Prod.fst = pre := List.map_fst_zip _ _ (le_of_eq hpre)
    have hzp' : (pre.zip tpre).map Prod.snd = tpre :=
      List.map_snd_zip _ _ (le_of_eq hpre.symm)
    have hdz : ∀ p ∈ pre.zip tpre, ((loopAccum m c tc).layers p.1).Digest ≠ top := by
      intro p hp
      apply hdpre
      rw [← hzp]
      exact List.mem_map_of_mem _ hp
    -- the iterations before the failing call
    obtain ⟨t1, t2⟩ :=
      loop_stack_trees Stack top c tc (pre.zip tpre) (loopAccum m c tc) rfl rfl hdz
    rw [hzp'] at t1 t2
    have h1 : (loop Stack top (loopAccum m c tc) (pre.zip tpre)).2 = false := by
      rw [t1]; exact hprev
    obtain ⟨i1, _, _, _⟩ :=
      loop_stack_ok Stack top c tc (pre.zip tpre) (loopAccum m c tc) rfl rfl hdz h1
    obtain ⟨f1, f2, _⟩ := loop_frame Stack top c tc (pre.zip tpre) (loopAccum m c tc) rfl
    -- the iteration of the failing call
    have hfail' : (Stack (loop Stack top (loopAccum m c tc) (pre.zip tpre)).1.trees tc t).2
        = true := by
      rw [t2]; exact hfail
    have hb := loopBody_stack Stack top (loop Stack top (loopAccum m c tc) (pre.zip tpre)).1
      l t c tc f1 i1
    rw [if_pos hfail'] at hb
    have hstep : loop Stack top (loop Stack top (loopAccum m c tc) (pre.zip tpre)).1
          ((l, t) :: post.zip tpost)
        = loopBody Stack top (loop Stack top (loopAccum m c tc) (pre.zip tpre)).1 l t := by
      simp [loop, hb]
    have hwhole : loop Stack top (loopAccum m c tc)
          ((pre ++ l :: post).zip (tpre ++ t :: tpost))
        = loopBody Stack top (loop Stack top (loopAccum m c tc) (pre.zip tpre)).1 l t := by
      rw [hzip, loop_append, h1, hstep]
      simp
    have hloopfail : (loop Stack top (loopAccum m c tc)
        ((pre ++ l :: post).zip (tpre ++ t :: tpost))).2 = true := by
      rw [hwhole, hb]
    obtain ⟨a1, a2, a3, a4, a5⟩ :=
      AnalyzeCNB_of_loop_fail pack Stack m imageName top c tc _ _ hN hI hL hT hlen hloopfail
    rw [hwhole, hb] at a4 a5
    refine ⟨a1, a2, a3, ?_, ?_, AnalyzeCNB_frame pack Stack m imageName c, ?_⟩
    · rw [a5, t2]
      rfl
    · intro a ha
      rw [a4]
      show addSize _ c l a = m.layers a
      rw [addSize_other _ _ _ _ ha, f2 a ha]
      rfl
    · intro hnot hcl
      have hmod := loop_stack_size_mod Stack top c tc (pre.zip tpre) (loopAccum m c tc) rfl
        rfl hdz h1 (by rw [hzp]; exact hnot)
      have hsum : (pre.zip tpre).map (fun p => ((loopAccum m c tc).layers p.1).Size)
          = pre.map (fun a => (m.layers a).Size) := by
        have : (fun p : Addr × Addr => ((loopAccum m c tc).layers p.1).Size)
            = (fun a => (m.layers a).Size) ∘ Prod.fst := rfl
        rw [this, ← List.map_map, hzp]
      rw [hsum] at hmod
      rw [a4]
      show (addSize _ c l c).Size = _
      rw [addSize_self]
      simp only
      rw [f2 l (Ne.symm hcl)]
      have hacc : (loopAccum m c tc).layers = m.layers := rfl
      rw [hacc] at hmod ⊢
      simp only [List.map_append, List.sum_append, List.map_cons, List.map_nil, List.sum_cons,
        List.sum_nil, Nat.add_zero]
      unfold wrapU64 at hmod ⊢
      omega
  · intro herr
    obtain ⟨c, tc, rest, trest, hL, hT, hlen, hfail⟩ :=
      AnalyzeCNB_loop_fail_of_err pack Stack m imageName top hI herr
    obtain ⟨zp, l, t, zq, h1, h2, h3, h4⟩ :=
      loop_fail_decompose Stack top c tc (rest.zip trest) (loopAccum m c tc) rfl rfl hfail
    have hzf : (rest.zip trest).map Prod.fst = rest := List.map_fst_zip _ _ (le_of_eq hlen)
    have hzs : (rest.zip trest).map Prod.snd = trest :=
      List.map_snd_zip _ _ (le_of_eq hlen.symm)
    refine ⟨c, tc, zp.map Prod.fst, l, zq.map Prod.fst, zp.map Prod.snd, t,
      zq.map Prod.snd, ?_, ?_, by simp, by simp, ?_, h3, h4⟩
    · rw [hL, ← hzf, h1]
      simp
    · rw [hT, ← hzs, h1]
      simp
    · intro a ha
      obtain ⟨p, hp, hpa⟩ := List.mem_map.mp ha
      rw [← hpa]
      exact h2 p hp

/-- Witness of the amended C6: two layers of sizes 10 and 20 with a `Stack` that fails on the
second tree; the stacking error is returned and the first layer ends with `Size` 30. -/
theorem AnalyzeCNB_stack_failure_witness :
    stackFailsAt stackFail "sha256:bb" memTwo 0 0 [] 1 [] [] 1 []
      ∧ (AnalyzeCNB packTopBB stackFail memTwo "img").err = some CNBError.stackingTrees
      ∧ (AnalyzeCNB packTopBB stackFail memTwo "img").result = none
      ∧ (AnalyzeCNB packTopBB stackFail memTwo "img").memory.analysis = memTwo.analysis
      ∧ ((AnalyzeCNB packTopBB stackFail memTwo "img").memory.layers 0).Size
          = wrapU64 (10 + (20 + 0)) :=
  have hsf : stackFailsAt stackFail "sha256:bb" memTwo 0 0 [] 1 [] [] 1 [] :=
    ⟨rfl, rfl, rfl, rfl, by simp, rfl, rfl⟩
  have h := (AnalyzeCNB_stack_failure packTopBB stackFail memTwo "img" "sha256:bb" rfl rfl).1
    0 0 [] 1 [] [] 1 [] hsf
  ⟨hsf, h.1, h.2.1, h.2.2.1, h.2.2.2.2.2.2 (by simp) (by decide)⟩

end Dive
